import Mathlib

/-!
# Verification of the SIS schedule scraper (`src/scraper`)

Shallow embedding of the schedule-extraction engine of the repository:
`scraper/models.py` (the `ScheduleEvent` record and its constructor
validation) and `scraper/scraper.py` (`_parse_hour`, `_parse_cell_content`
and `parse_events`).  HTML documents are modelled as a small tree type
(`Node`), string heuristics of the source are translated regex-by-regex,
and the grid/span-merging traversal of `parse_events` is translated as an
explicit recursion threading the `processed` set.

Modelling conventions:
* Python `datetime.time` values are pairs of naturals; the `time(h, m)`
  range check (`ValueError` outside 0-23/0-59) is `pyTime`.
* Python exceptions are `Except`/`Option` results; `RuntimeError` and
  `ValueError` raised by `parse_events` are the `PyError` type.
* BeautifulSoup behaviour follows bs4 >= 4.9: tags are always truthy,
  `NavigableString` objects expose `get_text`, multi-valued `class`
  attributes match a filter if any single class matches or the
  space-joined class string matches.
* `str.lower()` is modelled on ASCII plus the Polish letters occurring in
  the source's patterns; Python `\d`, `\s`, `\w` are modelled on the
  character ranges the timetable data exercises (ASCII digits, common
  whitespace, ASCII/Polish word characters).
-/

namespace SIS

/-! ## Characters and strings -/

/-- Whitespace for `str.strip()` / `\s`: ASCII whitespace plus NBSP. -/
def pySpace (c : Char) : Bool :=
  c = ' ' || c = '\t' || c = '\n' || c = '\x0d' || c = '\x0b' || c = '\x0c' || c = ' '

def pyStripList (l : List Char) : List Char :=
  ((l.dropWhile pySpace).reverse.dropWhile pySpace).reverse

/-- Python `str.strip()`. -/
def pyStrip (s : String) : String := String.mk (pyStripList s.data)

/-- Python `str.isspace()`: non-empty and all whitespace. -/
def pyIsSpace (s : String) : Bool := !s.data.isEmpty && s.data.all pySpace

def isDigitChar (c : Char) : Bool := '0' ≤ c && c ≤ '9'

def isAsciiUpper (c : Char) : Bool := 'A' ≤ c && c ≤ 'Z'

def isAsciiLower (c : Char) : Bool := 'a' ≤ c && c ≤ 'z'

def isAsciiLetter (c : Char) : Bool := isAsciiUpper c || isAsciiLower c

def isAsciiAlnum (c : Char) : Bool := isAsciiLetter c || isDigitChar c

def polishUppers : List Char := ['Ą', 'Ć', 'Ę', 'Ł', 'Ń', 'Ó', 'Ś', 'Ź', 'Ż']

def polishLowers : List Char := ['ą', 'ć', 'ę', 'ł', 'ń', 'ó', 'ś', 'ź', 'ż']

def isPolishUpper (c : Char) : Bool := polishUppers.contains c

def isPolishLower (c : Char) : Bool := polishLowers.contains c

/-- `str.lower()` on one character (ASCII and the Polish letters used by
the source's patterns; other characters are left unchanged). -/
def pyLowerChar (c : Char) : Char :=
  if isAsciiUpper c then Char.ofNat (c.toNat + 32)
  else match polishUppers.indexOf? c with
  | some i => polishLowers.getD i c
  | none => c

/-- Python `str.lower()`. -/
def pyLower (s : String) : String := String.mk (s.data.map pyLowerChar)

/-- Python `\w` (with `re.UNICODE`): word characters occurring in the data. -/
def isWordChar (c : Char) : Bool :=
  isAsciiAlnum c || c = '_' || isPolishUpper c || isPolishLower c

/-- `pat` occurs as a contiguous sublist of `l` (Python `pat in s`). -/
def containsSub (l pat : List Char) : Bool :=
  match l with
  | [] => pat.isEmpty
  | _ :: rest => pat.isPrefixOf l || containsSub rest pat

/-- Python `haystack.find(needle)` (character index of first occurrence). -/
def findSubAux (l pat : List Char) (i : Nat) : Option Nat :=
  match l with
  | [] => if pat.isEmpty then some i else none
  | _ :: rest => if pat.isPrefixOf l then some i else findSubAux rest pat (i + 1)

def strContains (s pat : String) : Bool := containsSub s.data pat.data

def pyFind (s pat : String) : Option Nat := findSubAux s.data pat.data 0

def digitsVal (ds : List Char) : Nat :=
  ds.foldl (fun acc c => acc * 10 + (c.toNat - ('0').toNat)) 0

/-- Python `int(s)` on the strings this program produces: optional
whitespace, optional sign, then decimal digits. -/
def pyInt (s : String) : Option Int :=
  match (pyStrip s).data with
  | [] => none
  | '-' :: ds => if !ds.isEmpty && ds.all isDigitChar then some (-(digitsVal ds : Int)) else none
  | '+' :: ds => if !ds.isEmpty && ds.all isDigitChar then some ((digitsVal ds : Int)) else none
  | ds => if ds.all isDigitChar then some ((digitsVal ds : Int)) else none

/-! ## Wall-clock times (`datetime.time`) -/

/-- A Python `datetime.time` restricted to hour/minute as the source uses. -/
structure PyTime where
  hour : Nat
  minute : Nat
deriving DecidableEq, Repr

/-- `time(h, m)`: raises `ValueError` outside the valid ranges. -/
def pyTime (h m : Nat) : Option PyTime :=
  if h ≤ 23 && m ≤ 59 then some ⟨h, m⟩ else none

/-- Python `time` comparison is lexicographic on (hour, minute). -/
def PyTime.ltb (a b : PyTime) : Bool :=
  a.hour < b.hour || (a.hour = b.hour && a.minute < b.minute)

def PyTime.leb (a b : PyTime) : Bool :=
  a.hour < b.hour || (a.hour = b.hour && a.minute ≤ b.minute)

/-! ## Regex helpers translated from `scraper.py` -/

/-- `re.search(r"^\d{1,2}:\d{2}$", s)`: the whole string is `H:MM`/`HH:MM`. -/
def hourRowMatch (s : String) : Bool :=
  match s.data with
  | [d1, ':', d3, d4] => isDigitChar d1 && isDigitChar d3 && isDigitChar d4
  | [d1, d2, ':', d3, d4] =>
      isDigitChar d1 && isDigitChar d2 && isDigitChar d3 && isDigitChar d4
  | _ => false

/-- One attempt of `(\d{1,2}):(\d{2})` at a fixed position (two digits
tried greedily before one). -/
def tryHourAt (l : List Char) : Option (Nat × Nat) :=
  match l with
  | d1 :: d2 :: ':' :: d3 :: d4 :: _ =>
      if isDigitChar d1 && isDigitChar d2 && isDigitChar d3 && isDigitChar d4 then
        some (digitsVal [d1, d2], digitsVal [d3, d4])
      else if isDigitChar d1 && d2 = ':' then none
      else none
  | d1 :: ':' :: d3 :: d4 :: _ =>
      if isDigitChar d1 && isDigitChar d3 && isDigitChar d4 then
        some (digitsVal [d1], digitsVal [d3, d4])
      else none
  | _ => none

/-- Leftmost match of `(\d{1,2}):(\d{2})`.  At a position where two
leading digits are followed by `:`, the one-digit alternative also has to
be considered. -/
def hourSearch (l : List Char) : Option (Nat × Nat) :=
  match l with
  | [] => none
  | _ :: rest =>
      match tryHourAt l with
      | some hm => some hm
      | none =>
          match l with
          | d1 :: ':' :: d3 :: d4 :: _ =>
              if isDigitChar d1 && isDigitChar d3 && isDigitChar d4 then
                some (digitsVal [d1], digitsVal [d3, d4])
              else hourSearch rest
          | _ => hourSearch rest

/-- `ScheduleScraper._parse_hour` (scraper.py 137-153): strip, search the
hour pattern, build a `time`.  A failed search and an out-of-range
`time()` both raise `ValueError`, collapsed here into `none`. -/
def parse_hour (s : String) : Option PyTime :=
  match hourSearch (pyStrip s).data with
  | some (h, m) => pyTime h m
  | none => none

/-- Leftmost match of `\[([WLPSC])\]` (event type code). -/
def typeCodeSearch : List Char → Option Char
  | [] => none
  | c :: rest =>
      match c, rest with
      | '[', k :: ']' :: _ =>
          if k = 'W' || k = 'L' || k = 'P' || k = 'S' || k = 'C' then some k
          else typeCodeSearch rest
      | _, _ => typeCodeSearch rest

/-- Tail of the room pattern: `\s*[A-Z0-9][\w\.]*$` (IGNORECASE). -/
def roomTail (l : List Char) : Bool :=
  match l.dropWhile pySpace with
  | c :: rest => isAsciiAlnum c && rest.all (fun d => isWordChar d || d = '.')
  | [] => false

/-- `re.match(r'^[A-Z]{1,5}\s*[A-Z0-9][\w\.]*$', s, re.IGNORECASE)`
(scraper.py 239). -/
def roomMatch (s : String) : Bool :=
  let l := s.data
  (List.range 5).any fun i =>
    let k := i + 1
    k ≤ l.length && (l.take k).all isAsciiLetter && roomTail (l.drop k)

/-- A match of `(do|od)\s+\d{2}\.\d{2}\.\d{4}` starting at this position. -/
def dateAt (l : List Char) : Bool :=
  match l with
  | a :: b :: rest =>
      ((a = 'd' && b = 'o') || (a = 'o' && b = 'd')) &&
      (match rest with
       | c :: _ =>
           pySpace c &&
           (match rest.dropWhile pySpace with
            | d1 :: d2 :: '.' :: d3 :: d4 :: '.' :: d5 :: d6 :: d7 :: d8 :: _ =>
                [d1, d2, d3, d4, d5, d6, d7, d8].all isDigitChar
            | _ => false)
       | [] => false)
  | _ => false

/-- `re.search(r'(do|od)\s+\d{2}\.\d{2}\.\d{4}', s)` (scraper.py 264). -/
def dateConstraintSearch (s : String) : Bool :=
  let rec go : List Char → Bool
    | [] => false
    | l@(_ :: rest) => dateAt l || go rest
  go s.data

/-- A match of `co\s+(\d+)\s+tygodn` starting at this position; returns
group 1 (the digits). -/
def coNAt (l : List Char) : Option (List Char) :=
  match l with
  | 'c' :: 'o' :: rest =>
      match rest with
      | c :: _ =>
          if pySpace c then
            let r1 := rest.dropWhile pySpace
            let ds := r1.takeWhile isDigitChar
            if ds.isEmpty then none
            else
              let r2 := r1.drop ds.length
              match r2 with
              | c2 :: _ =>
                  if pySpace c2 then
                    if (String.data ("tygodn")).isPrefixOf (r2.dropWhile pySpace) then some ds
                    else none
                  else none
              | [] => none
          else none
      | [] => none
  | _ => none

/-- `re.search(r'co\s+(\d+)\s+tygodn', s)` (scraper.py 268), group 1. -/
def coNSearch (s : String) : Option String :=
  let rec go : List Char → Option (List Char)
    | [] => none
    | l@(_ :: rest) =>
        match coNAt l with
        | some ds => some ds
        | none => go rest
  (go s.data).map String.mk

/-! ### The instructor-name regex (scraper.py 281-284)

`((?:dr hab\.|dr inż\.|dr|prof\.|mgr inż\.|mgr)\.?\s+
  [A-ZĄĆĘŁŃÓŚŹŻ][a-ząćęłńóśźż]+(?:\s+[A-ZĄĆĘŁŃÓŚŹŻ][a-ząćęłńóśźż-]+)*)` -/

def nameUpper (c : Char) : Bool := isAsciiUpper c || isPolishUpper c

def nameLower1 (c : Char) : Bool := isAsciiLower c || isPolishLower c

def nameLower2 (c : Char) : Bool := nameLower1 c || c = '-'

/-- Greedy `(?:\s+[UPPER][lower-]+)*`, returning the consumed characters.
Implemented with fuel (the list length bounds the number of rounds). -/
def instrMore : Nat → List Char → List Char
  | 0, _ => []
  | fuel + 1, l =>
      let ws := l.takeWhile pySpace
      if ws.isEmpty then []
      else
        match l.drop ws.length with
        | c :: rest =>
            if nameUpper c then
              let lows := rest.takeWhile nameLower2
              if lows.isEmpty then []
              else ws ++ c :: lows ++ instrMore fuel (rest.drop lows.length)
            else []
        | [] => []

/-- `\s+[UPPER][lower]+` then the greedy star; returns consumed characters. -/
def instrCont (l : List Char) : Option (List Char) :=
  let ws := l.takeWhile pySpace
  if ws.isEmpty then none
  else
    match l.drop ws.length with
    | c :: rest =>
        if nameUpper c then
          let lows := rest.takeWhile nameLower1
          if lows.isEmpty then none
          else some (ws ++ c :: lows ++ instrMore (rest.length) (rest.drop lows.length))
        else none
    | [] => none

/-- `\.?` then the name part, with the optional dot tried greedily. -/
def instrAfterTitle (l : List Char) : Option (List Char) :=
  match l with
  | '.' :: rest =>
      match instrCont rest with
      | some c => some ('.' :: c)
      | none => instrCont l
  | _ => instrCont l

def titleAlts : List (List Char) :=
  [String.data ("dr hab."), String.data ("dr inż."), String.data ("dr"),
   String.data ("prof."), String.data ("mgr inż."), String.data ("mgr")]

/-- The full alternation tried in regex order at one position, with the
continuation (regex alternation backtracks into later alternatives). -/
def instrAt (l : List Char) : Option (List Char) :=
  titleAlts.findSome? fun t =>
    if t.isPrefixOf l then (instrAfterTitle (l.drop t.length)).map (t ++ ·) else none

/-- Leftmost search for the instructor pattern; the source applies
`.strip()` to group 1. -/
def instrSearch (s : String) : Option String :=
  let rec go : List Char → Option (List Char)
    | [] => none
    | l@(_ :: rest) =>
        match instrAt l with
        | some g => some g
        | none => go rest
  (go s.data).map (fun g => pyStrip (String.mk g))

/-! ## HTML documents

A parsed document tree.  An element carries its tag name, its `class`
attribute (the list of classes; `[]` models an absent attribute) and its
children.  Text nodes model `NavigableString`s. -/

inductive Node where
  | text : String → Node
  | elem : String → List String → List Node → Node
deriving Repr

mutual
/-- All descendant strings of a node, in document order (`tag.strings`). -/
def Node.strings : Node → List String
  | .text s => [s]
  | .elem _ _ cs => Node.stringsL cs
def Node.stringsL : List Node → List String
  | [] => []
  | n :: ns => Node.strings n ++ Node.stringsL ns
end

/-- `tag.get_text(separator, strip)`: join descendant strings; with
`strip=True` each string is stripped and blank strings are skipped. -/
def Node.getText (sep : String) (strip : Bool) (n : Node) : String :=
  if strip then String.intercalate sep (((Node.strings n).map pyStrip).filter (fun t => t ≠ ""))
  else String.intercalate sep (Node.strings n)

mutual
/-- `find_all(pred)`: matching descendants in document order (preorder,
excluding the node itself). -/
def Node.findAll (p : Node → Bool) : Node → List Node
  | .text _ => []
  | .elem _ _ cs => Node.findAllL p cs
def Node.findAllL (p : Node → Bool) : List Node → List Node
  | [] => []
  | c :: cs => (if p c then [c] else []) ++ Node.findAll p c ++ Node.findAllL p cs
end

/-- `find(pred)`: the first matching descendant, or `None`. -/
def Node.findFirst (p : Node → Bool) (n : Node) : Option Node :=
  (Node.findAll p n).head?

/-- bs4 matching of a plain-string `class_` filter against a multi-valued
class attribute: some class equals it, or the space-joined string does. -/
def classStringMatch (target : String) (cs : List String) : Bool :=
  cs.contains target || String.intercalate (" ") cs == target

def Node.tagName : Node → Option String
  | .text _ => none
  | .elem n _ _ => some n

def Node.classes : Node → List String
  | .text _ => []
  | .elem _ cs _ => cs

def isTagWithClass (name cls : String) (n : Node) : Bool :=
  n.tagName == some name && classStringMatch cls n.classes

/-- An `<a class="subject_name">` course-name anchor. -/
def isSubjectLink (n : Node) : Bool := isTagWithClass ("a") ("subject_name") n

mutual
/-- For every course-name anchor among the descendants (document order):
the anchor, its previous siblings (nearest first) and its next siblings —
the contexts `previous_siblings`/`next_siblings` give in the source. -/
def Node.linkCtxs : Node → List (Node × List Node × List Node)
  | .text _ => []
  | .elem _ _ cs => Node.linkCtxsL [] cs
def Node.linkCtxsL (before : List Node) : List Node → List (Node × List Node × List Node)
  | [] => []
  | c :: cs =>
      (if isSubjectLink c then [(c, before, cs)] else []) ++
      Node.linkCtxs c ++ Node.linkCtxsL (c :: before) cs
end

/-- Escaping of text content in bs4's HTML output. -/
def htmlEscape (s : String) : String :=
  String.join (s.data.map fun c =>
    if c = '&' then ("&amp;") else if c = '<' then ("&lt;")
    else if c = '>' then ("&gt;") else String.mk [c])

def voidTag (name : String) : Bool :=
  name = "br" || name = "hr" || name = "img" || name = "input" ||
  name = "meta" || name = "link" || name = "wbr"

mutual
/-- `str(tag)`: bs4's minimal HTML serialization over this model (the
only attribute modelled is `class`; void elements render self-closed). -/
def Node.ser : Node → String
  | .text s => htmlEscape s
  | .elem name cs children =>
      let attrs := if cs.isEmpty then ("") else
        (" class=\"") ++ String.intercalate (" ") cs ++ ("\"")
      if voidTag name && children.isEmpty then
        ("<") ++ name ++ attrs ++ ("/>")
      else
        ("<") ++ name ++ attrs ++ (">") ++ Node.serL children ++ ("</") ++ name ++ (">")
def Node.serL : List Node → String
  | [] => ""
  | c :: cs => Node.ser c ++ Node.serL cs
end

/-! ## Raw event fragments (`_parse_cell_content`, scraper.py 155-301) -/

/-- The per-anchor result dictionary (scraper.py 192-200); every field is
a string exactly as in the source. -/
structure Frag where
  course_name : String
  event_type : String
  event_type_code : String
  instructor : String
  room : String
  repeat_interval : String
  date_constraint : String
deriving DecidableEq, Repr

/-- `event_type_map` (scraper.py 171-177), as `dict.get(code, "Zajęcia")`. -/
def eventTypeMap (c : Char) : String :=
  if c = 'W' then ("Wykład") else if c = 'L' then ("Laboratorium")
  else if c = 'P' then ("Projekt") else if c = 'S' then ("Seminarium")
  else if c = 'C' then ("Ćwiczenia") else ("Zajęcia")

/-- First pass of the room scan (scraper.py 217-230): an element carrying
class `room_name`, or a `<b>` wrapping a `room_name` anchor. -/
def roomOfElem (e : Node) : Option String :=
  match e with
  | .text _ => none
  | .elem name cs _ =>
      if cs.contains ("room_name") then some (Node.getText ("") true e)
      else if name = "b" then
        match Node.findFirst (isTagWithClass ("a") ("room_name")) e with
        | some anchor => some (Node.getText ("") true anchor)
        | none => none
      else none

def roomPass1 (prev : List Node) : Option String := prev.findSome? roomOfElem

/-- Fallback room scan (scraper.py 232-241): bold text matching the
room-code shape. -/
def roomPass2 (prev : List Node) : Option String :=
  prev.findSome? fun e =>
    match e with
    | .elem "b" _ _ =>
        let t := Node.getText ("") true e
        if roomMatch t then some t else none
    | _ => none

/-- Event-type scan over the preceding siblings (scraper.py 244-251). -/
def typeFromPrev (prev : List Node) : Option Char :=
  prev.findSome? fun e => typeCodeSearch (Node.getText ("") true e).data

/-- The forward sibling walk (scraper.py 254-277): collect text for the
instructor scan; the first `<b>` sets the date constraint or the repeat
interval and stops the walk; an `<a>` stops it; `<br>` is skipped.
(A whitespace string falls through both branches observably: under
bs4 >= 4.9 it would append an empty string to `next_elements`, which the
instructor regex can never match, so it is skipped here.)
Returns (collected texts, date-constraint override, interval override). -/
def walkNext : List Node → List String × Option String × Option String
  | [] => ([], none, none)
  | .text s :: rest =>
      if pyStrip s ≠ "" then
        let (ts, d, i) := walkNext rest
        (pyStrip s :: ts, d, i)
      else walkNext rest
  | e@(.elem name _ _) :: rest =>
      if name = "br" then walkNext rest
      else if name = "b" then
        let bt := Node.getText ("") true e
        if dateConstraintSearch bt then ([], some bt, none)
        else if strContains (pyLower bt) ("co 2 tygodn") then ([], none, some ("2"))
        else
          match coNSearch (pyLower bt) with
          | some n => ([], none, some n)
          | none => ([], none, none)
      else if name = "a" then ([], none, none)
      else
        let (ts, d, i) := walkNext rest
        (Node.getText ("") true e :: ts, d, i)

/-- Instructor extraction (scraper.py 280-287): first collected text with
a match wins. -/
def instructorFrom (ts : List String) : String := (ts.findSome? instrSearch).getD ("")

/-- Windowed biweekly fallback (scraper.py 289-297): if the whole cell
text mentions `co 2 tygodn` and the sibling walk left the interval at
`"1"`, look for the phrase within 500 serialized characters after the
anchor's serialized position. -/
def intervalFallback (htmlContent linkSer fullTextLower cur : String) : String :=
  if strContains fullTextLower ("co 2 tygodn") && cur == ("1") then
    match pyFind htmlContent linkSer with
    | some pos =>
        let context := pyLower (String.mk ((htmlContent.data.drop pos).take 500))
        if strContains context ("co 2 tygodn") then ("2") else cur
    | none => cur
  else cur

/-- One fragment per course-name anchor (the body of the `for
subject_link in subject_links` loop, scraper.py 191-299).  `prev_elements`
keeps at most six previous siblings (under bs4 >= 4.9 every sibling —
tag or string — has `get_text`, so each one is appended until the
`len > 5` break fires). -/
def fragOfLink (htmlContent fullTextLower : String)
    (ctx : Node × List Node × List Node) : Frag :=
  let link := ctx.1
  let prev := ctx.2.1.take 6
  let courseName := Node.getText ("") true link
  let room := ((roomPass1 prev).orElse (fun _ => roomPass2 prev)).getD ("")
  let code := typeFromPrev prev
  let eventTypeCode := match code with | some c => String.mk [c] | none => ""
  let eventType := match code with | some c => eventTypeMap c | none => ("Zajęcia")
  let walked := walkNext ctx.2.2
  let instructor := instructorFrom walked.1
  let dateConstraint := (walked.2.1).getD ("")
  let interval0 := (walked.2.2).getD ("1")
  let interval := intervalFallback htmlContent (Node.ser link) fullTextLower interval0
  { course_name := courseName, event_type := eventType,
    event_type_code := eventTypeCode, instructor := instructor, room := room,
    repeat_interval := interval, date_constraint := dateConstraint }

/-- `ScheduleScraper._parse_cell_content` (scraper.py 155-301): blank
cells (`not text or text.isspace()`) and cells without a course-name
anchor yield no fragments; otherwise one fragment per anchor. -/
def parse_cell_content (cell : Node) : List Frag :=
  if Node.getText (" ") true cell = "" ∨ pyIsSpace (Node.getText (" ") true cell) then []
  else
    match Node.linkCtxs cell with
    | [] => []
    | ctxs =>
        ctxs.map (fragOfLink (Node.ser cell) (pyLower (Node.getText (" ") true cell)))

/-! ## Output records (`models.py`) -/

/-- `ScheduleEvent` (models.py 7-19). -/
structure ScheduleEvent where
  course_name : String
  event_type : String
  instructor : String
  room : String
  weekday : Int
  start_time : PyTime
  end_time : PyTime
  repeat_interval : Int
  event_type_code : String
deriving DecidableEq, Repr

/-- Construction with `__post_init__` validation (models.py 21-27):
a violated invariant raises `ValueError`. -/
def ScheduleEvent.make (cn et ins rm : String) (wd : Int) (st en : PyTime)
    (ri : Int) (tc : String) : Except String ScheduleEvent :=
  if ¬ (0 ≤ wd ∧ wd ≤ 4) then
    .error (("Weekday must be 0-4 (Mon-Fri), got ") ++ toString wd)
  else if PyTime.leb en st then
    .error ("Start time must be before end time")
  else if ri < 1 then
    .error ("Repeat interval must be at least 1")
  else .ok ⟨cn, et, ins, rm, wd, st, en, ri, tc⟩

/-- Building a `ScheduleEvent` from a fragment (scraper.py 410-421): the
`int(...)` conversion of the stored interval string and the constructor
validation both raise `ValueError`, caught by the same handler.  (The
dictionary defaults of the `.get` calls are dead: every key is set when
the fragment is built.) -/
def materializeEvent (f : Frag) (col : Nat) (st en : PyTime) :
    Except String ScheduleEvent :=
  match pyInt f.repeat_interval with
  | none => .error (("invalid literal for int() with base 10: ") ++ f.repeat_interval)
  | some ri =>
      ScheduleEvent.make f.course_name f.event_type f.instructor f.room
        (Int.ofNat col) st en ri f.event_type_code

/-! ## The grid traversal of `parse_events` (scraper.py 360-428) -/

abbrev Cell := List Frag

/-- `cell_grid`: one entry per recognized time row, each a list of at most
five per-weekday cells (a short table row gives a short grid row). -/
abbrev Grid := List (List Cell)

/-- Keys of the `processed` set: (row, column, course name). -/
abbrev PKey := Nat × Nat × String

/-- The continuation test (scraper.py 387-389): candidate against origin. -/
def fragMatchB (g f : Frag) : Bool :=
  g.course_name == f.course_name && g.event_type == f.event_type && g.room == f.room

/-- `cell_grid[row][col]` guarded by `col < len(cell_grid[row])`. -/
def cellAt (grid : Grid) (row col : Nat) : Option Cell :=
  match grid[row]? with
  | some r => r[col]?
  | none => none

/-- The continuation-counting `while` loop (scraper.py 381-396),
structured over fuel (the number of grid rows still below the scan
position bounds the iterations; the caller passes exactly that).  The
loop stops at the end of the grid, at a row too short to hold this
column, or at the first cell without a matching fragment; a match marks
`(next_row, col, course name)` processed.  Returns the number of
continued rows and the grown `processed` set. -/
def spanScanF (grid : Grid) (col : Nat) (f : Frag) :
    Nat → Nat → List PKey → Nat × List PKey
  | 0, _, P => (0, P)
  | fuel + 1, nextRow, P =>
      if nextRow < grid.length then
        match cellAt grid nextRow col with
        | none => (0, P)
        | some cell =>
            match cell.find? (fun g => fragMatchB g f) with
            | none => (0, P)
            | some g =>
                let r := spanScanF grid col f fuel (nextRow + 1)
                  ((nextRow, col, g.course_name) :: P)
                (r.1 + 1, r.2)
      else (0, P)

def spanScan (grid : Grid) (col : Nat) (f : Frag) (nextRow : Nat) (P : List PKey) :
    Nat × List PKey :=
  spanScanF grid col f (grid.length - nextRow) nextRow P

/-- `end_time` of a merged event (scraper.py 401-408): the boundary after
the span when it exists, otherwise one hour past the last boundary. -/
def computeEnd (hours : List PyTime) (row span : Nat) : PyTime :=
  let endRowIdx := min (row + span) (hours.length - 1)
  if row + span < hours.length then hours.getD (row + span) ⟨0, 0⟩
  else
    let t := hours.getD endRowIdx ⟨0, 0⟩
    ⟨(t.hour + 1) % 24, t.minute⟩

/-- The `for event_data in cell_events` loop (scraper.py 375-424): skip
fragments whose key is processed; otherwise count the span, mark the
origin key, and append the materialized event — a `ValueError` from
construction only skips that record. -/
def processCellFrags (hours : List PyTime) (grid : Grid) (col row : Nat) :
    List Frag → List PKey → List ScheduleEvent → List ScheduleEvent × List PKey
  | [], P, acc => (acc, P)
  | f :: fs, P, acc =>
      if P.contains (row, col, f.course_name) then
        processCellFrags hours grid col row fs P acc
      else
        let s := spanScan grid col f (row + 1) P
        let span := 1 + s.1
        let P2 := (row, col, f.course_name) :: s.2
        let st := hours.getD row ⟨0, 0⟩
        let en := computeEnd hours row span
        match materializeEvent f col st en with
        | .ok e => processCellFrags hours grid col row fs P2 (acc ++ [e])
        | .error _ => processCellFrags hours grid col row fs P2 acc

/-- The `while row < len(cell_grid)` loop (scraper.py 364-426), over the
same fuel discipline as `spanScanF`: a row too short for this column, or
an empty cell, just advances. -/
def processRowsF (hours : List PyTime) (grid : Grid) (col : Nat) :
    Nat → Nat → List PKey → List ScheduleEvent → List ScheduleEvent × List PKey
  | 0, _, P, acc => (acc, P)
  | fuel + 1, row, P, acc =>
      if row < grid.length then
        match cellAt grid row col with
        | none => processRowsF hours grid col fuel (row + 1) P acc
        | some cell =>
            let r := processCellFrags hours grid col row cell P acc
            processRowsF hours grid col fuel (row + 1) r.2 r.1
      else (acc, P)

def processRows (hours : List PyTime) (grid : Grid) (col row : Nat)
    (P : List PKey) (acc : List ScheduleEvent) : List ScheduleEvent × List PKey :=
  processRowsF hours grid col (grid.length - row) row P acc

def processColsFold (hours : List PyTime) (grid : Grid) :
    List Nat → List PKey → List ScheduleEvent → List ScheduleEvent
  | [], _, acc => acc
  | c :: cs, P, acc =>
      let r := processRows hours grid c 0 P acc
      processColsFold hours grid cs r.2 r.1

/-- `len(cell_grid[0]) if cell_grid else 0`. -/
def gridWidth (grid : Grid) : Nat :=
  match grid with
  | [] => 0
  | r :: _ => r.length

/-- The whole merging phase: `for col in range(min(5, len(cell_grid[0])
if cell_grid else 0))` over the row traversal, with one shared
`processed` set (scraper.py 361-428). -/
def processGrid (hours : List PyTime) (grid : Grid) : List ScheduleEvent :=
  processColsFold hours grid (List.range (min 5 (gridWidth grid))) [] []

/-! ### Merged records before materialization

The same traversal, recording each merged (fragment, column, row, span)
instead of materializing it.  Materialization cannot influence the
traversal (the `try` block only appends), so `processGrid` is provably
the `filterMap` of materialization over these records; this separates
"which records are merged" from "which records survive validation". -/

structure MergedRec where
  frag : Frag
  col : Nat
  row : Nat
  span : Nat
deriving DecidableEq, Repr

/-- Materialization of one merged record (start/end as scraper.py 400-408). -/
def matRec (hours : List PyTime) (r : MergedRec) : Option ScheduleEvent :=
  (materializeEvent r.frag r.col (hours.getD r.row ⟨0, 0⟩)
    (computeEnd hours r.row r.span)).toOption

def mergedCellFrags (grid : Grid) (col row : Nat) :
    List Frag → List PKey → List MergedRec → List MergedRec × List PKey
  | [], P, acc => (acc, P)
  | f :: fs, P, acc =>
      if P.contains (row, col, f.course_name) then
        mergedCellFrags grid col row fs P acc
      else
        let s := spanScan grid col f (row + 1) P
        let P2 := (row, col, f.course_name) :: s.2
        mergedCellFrags grid col row fs P2 (acc ++ [⟨f, col, row, 1 + s.1⟩])

def mergedRowsF (grid : Grid) (col : Nat) :
    Nat → Nat → List PKey → List MergedRec → List MergedRec × List PKey
  | 0, _, P, acc => (acc, P)
  | fuel + 1, row, P, acc =>
      if row < grid.length then
        match cellAt grid row col with
        | none => mergedRowsF grid col fuel (row + 1) P acc
        | some cell =>
            let r := mergedCellFrags grid col row cell P acc
            mergedRowsF grid col fuel (row + 1) r.2 r.1
      else (acc, P)

def mergedRows (grid : Grid) (col row : Nat) (P : List PKey)
    (acc : List MergedRec) : List MergedRec × List PKey :=
  mergedRowsF grid col (grid.length - row) row P acc

def mergedColsFold (grid : Grid) :
    List Nat → List PKey → List MergedRec → List MergedRec
  | [], _, acc => acc
  | c :: cs, P, acc =>
      let r := mergedRows grid c 0 P acc
      mergedColsFold grid cs r.2 r.1

def mergedRecords (grid : Grid) : List MergedRec :=
  mergedColsFold grid (List.range (min 5 (gridWidth grid))) [] []

/-! ## Locating the table and building the grid (scraper.py 309-358) -/

inductive PyError where
  | runtimeError : String → PyError
  | valueError : String → PyError
deriving DecidableEq, Repr

/-- `re.search` of `table.*table-bordered.*table-striped`: the three
literals occur in order (the greedy `.*` only needs existence). -/
def seqSearch : List (List Char) → List Char → Bool
  | [], _ => true
  | p :: ps, l =>
      match findSubAux l p 0 with
      | some i => seqSearch ps (l.drop (i + p.length))
      | none => false

def tableClassRegex (s : String) : Bool :=
  seqSearch [String.data ("table"), String.data ("table-bordered"),
    String.data ("table-striped")] s.data

/-- bs4 regex `class_` filter: some single class matches, or the
space-joined class string does. -/
def classRegexMatch (re : String → Bool) (cs : List String) : Bool :=
  cs.any re || re (String.intercalate (" ") cs)

def isTableTag (n : Node) : Bool := n.tagName == some ("table")

/-- Table lookup with fallback (scraper.py 312-314).  Under bs4 a `Tag`
is always truthy and a name filter only returns tags, so `not table or
not isinstance(table, Tag)` is exactly "no match". -/
def findTable (soup : Node) : Option Node :=
  match Node.findFirst (fun n => isTableTag n && classRegexMatch tableClassRegex n.classes) soup with
  | some t => some t
  | none =>
      Node.findFirst (fun n => isTableTag n && classStringMatch ("table") n.classes) soup

def isTr (n : Node) : Bool := n.tagName == some ("tr")

def isCellTag (n : Node) : Bool :=
  n.tagName == some ("td") || n.tagName == some ("th")

/-- The row scan (scraper.py 327-355): a row whose cells are non-empty
and whose first cell's text is a bare hour starts a time row; the hour is
appended and cells 1-5 are parsed into the grid row (a `ValueError` from
an out-of-range `time()` skips the row).  `hours` and `cell_grid` grow in
lockstep. -/
def buildRows : List Node → List PyTime × Grid
  | [] => ([], [])
  | r :: rest =>
      match Node.findAll isCellTag r with
      | [] => buildRows rest
      | c0 :: cs =>
          let firstText := Node.getText ("") true c0
          if hourRowMatch firstText then
            match parse_hour firstText with
            | some h =>
                let rowData := (cs.take 5).map parse_cell_content
                let hg := buildRows rest
                (h :: hg.1, rowData :: hg.2)
            | none => buildRows rest
          else buildRows rest

/-- `ScheduleScraper.parse_events` on a loaded document (scraper.py
303-428). -/
def parse_events_doc (soup : Node) : Except PyError (List ScheduleEvent) :=
  match findTable soup with
  | none => .error (.valueError ("Schedule table not found in the page"))
  | some table =>
      if (buildRows (Node.findAll isTr table)).1.isEmpty then
        .error (.valueError ("No time slots found in schedule table"))
      else
        .ok (processGrid (buildRows (Node.findAll isTr table)).1
          (buildRows (Node.findAll isTr table)).2)

/-- `ScheduleScraper.parse_events` including the `self._soup` guard
(scraper.py 309-310). -/
def parse_events (soup : Option Node) : Except PyError (List ScheduleEvent) :=
  match soup with
  | none => .error (.runtimeError ("No schedule data loaded. Call fetch_schedule() first."))
  | some s => parse_events_doc s

/-! ## Scraper state across calls (scraper.py 28-135, 303-310)

Only `_soup` is relevant to parsing; the browser lifecycle is external.
`fetch_schedule` stores the parsed page in `self._soup` (and leaves it
there); `parse_events` reads `_soup` and never writes any field. -/

structure ScraperState where
  soup : Option Node

/-- `fetch_schedule` (scraper.py 111-135) with the fetched page tree as
the abstracted result of the browser session: sets `_soup`. -/
def fetch_schedule (_st : ScraperState) (page : Node) : ScraperState × Node :=
  ({ soup := some page }, page)

/-- `parse_events` as a state transition: it returns its result and the
unchanged state (the method never assigns to `self`). -/
def parse_events_st (st : ScraperState) :
    (Except PyError (List ScheduleEvent)) × ScraperState :=
  (parse_events st.soup, st)

/-! ## Derived notions used in the statements -/

/-- The §3 invariants of an output record. -/
def eventInv (e : ScheduleEvent) : Prop :=
  (0 ≤ e.weekday ∧ e.weekday ≤ 4) ∧
  PyTime.ltb e.start_time e.end_time = true ∧ 1 ≤ e.repeat_interval

instance (e : ScheduleEvent) : Decidable (eventInv e) := by
  unfold eventInv; infer_instance

/-- The merge key of a fragment: (course name, event type label, room). -/
def fragKey (f : Frag) : String × String × String :=
  (f.course_name, f.event_type, f.room)

/-- Slot boundaries in strictly increasing wall-clock order (the spec's
§3 invariant on the boundary sequence). -/
def hoursStrictMono (hours : List PyTime) : Prop :=
  List.Pairwise (fun a b => PyTime.ltb a b = true) hours

/-- The cell of a grid column at a row, with a missing entry (row too
short, or row out of range) read as an empty cell. -/
def colCell (grid : Grid) (col row : Nat) : Cell :=
  (grid.getD row []).getD col []

/-- Pad one grid row with empty cells up to the five weekday columns. -/
def padRow5 (r : List Cell) : List Cell :=
  r ++ List.replicate (5 - r.length) ([] : Cell)

def padGridRow (grid : Grid) (i : Nat) : Grid :=
  grid.set i (padRow5 (grid.getD i []))

/-! ## Concrete documents and cells used as test inputs -/

def cellEmpty : Node := .elem ("td") [] []

/-- `<td><b>[W]</b><b>EA 101</b><a class="subject_name">Algorytmy</a></td>` -/
def cellA : Node := .elem ("td") []
  [.elem ("b") [] [.text ("[W]")], .elem ("b") [] [.text ("EA 101")],
   .elem ("a") [("subject_name")] [.text ("Algorytmy")]]

/-- A table row: hour label cell followed by one weekday cell. -/
def trOf (h : String) (c : Node) : Node :=
  .elem ("tr") [] [.elem ("td") [] [.text h], c]

def fragAlg : Frag :=
  ⟨("Algorytmy"), ("Wykład"), ("W"), (""), ("EA 101"), ("1"), ("")⟩

def evAlg : ScheduleEvent :=
  ⟨("Algorytmy"), ("Wykład"), (""), ("EA 101"), 0, ⟨7, 0⟩, ⟨8, 0⟩, 1, ("W")⟩

def table0 : Node :=
  .elem ("table") [("table"), ("table-bordered"), ("table-striped")]
    [trOf ("07:00") cellA, trOf ("08:00") cellEmpty]

/-- A two-slot schedule page with one lecture in the Monday 07:00 slot. -/
def doc0 : Node := .elem ("html") [] [table0]

/-- A page with no table element at all. -/
def docNoTable : Node := .elem ("html") [] [.elem ("div") [] [.text ("nothing")]]

/-- A page whose table has rows but no recognizable time row. -/
def docNoHours : Node := .elem ("html") []
  [.elem ("table") [("table")] [.elem ("tr") [] [.elem ("td") [] [.text ("Monday")]]]]

/-- `<td><b>EA 101</b><a class="subject_name">Algo</a></td>` -/
def cellF : Node := .elem ("td") []
  [.elem ("b") [] [.text ("EA 101")], .elem ("a") [("subject_name")] [.text ("Algo")]]

def fragF : Frag := ⟨("Algo"), ("Zajęcia"), (""), (""), ("EA 101"), ("1"), ("")⟩

/-- A cell with two course-name anchors for the same course in two
rooms: EA 102 first, then EA 101. -/
def cellG : Node := .elem ("td") []
  [.elem ("b") [] [.text ("EA 102")], .elem ("a") [("subject_name")] [.text ("Algo")],
   .elem ("br") [] [],
   .elem ("b") [] [.text ("EA 101")], .elem ("a") [("subject_name")] [.text ("Algo")]]

def fragG : Frag := ⟨("Algo"), ("Zajęcia"), (""), (""), ("EA 102"), ("1"), ("")⟩

/-- Column 0 rows 0-2 all contain the EA 101 fragment (a maximal
three-slot run), but row 0 also holds the EA 102 fragment of the same
course first. -/
def docC2 : Node := .elem ("html") []
  [.elem ("table") [("table")]
    [trOf ("07:00") cellG, trOf ("08:00") cellF, trOf ("09:00") cellF,
     trOf ("10:00") cellEmpty]]

def evG : ScheduleEvent :=
  ⟨("Algo"), ("Zajęcia"), (""), ("EA 101"), 0, ⟨8, 0⟩, ⟨10, 0⟩, 1, ("")⟩

def evGfirst : ScheduleEvent :=
  ⟨("Algo"), ("Zajęcia"), (""), ("EA 102"), 0, ⟨7, 0⟩, ⟨8, 0⟩, 1, ("")⟩

/-- A two-slot column fully occupied by one event (span reaches past the
last slot). -/
def docC3 : Node := .elem ("html") []
  [.elem ("table") [("table")] [trOf ("07:00") cellF, trOf ("08:00") cellF]]

def evC3 : ScheduleEvent :=
  ⟨("Algo"), ("Zajęcia"), (""), ("EA 101"), 0, ⟨7, 0⟩, ⟨9, 0⟩, 1, ("")⟩

/-- First time row with no weekday cells at all; the second time row has
a Monday fragment. -/
def docC6 : Node := .elem ("html") []
  [.elem ("table") [("table")]
    [.elem ("tr") [] [.elem ("td") [] [.text ("07:00")]], trOf ("08:00") cellF]]

/-- A cell whose course-name anchor has empty text next to other text. -/
def cellC7 : Node := .elem ("td") []
  [.elem ("b") [] [.text ("x")], .elem ("a") [("subject_name")] []]

def fragC7 : Frag := ⟨(""), ("Zajęcia"), (""), (""), (""), ("1"), ("")⟩

def docC7 : Node := .elem ("html") []
  [.elem ("table") [("table")] [trOf ("07:00") cellC7, trOf ("08:00") cellEmpty]]

def evC7 : ScheduleEvent :=
  ⟨(""), ("Zajęcia"), (""), (""), 0, ⟨7, 0⟩, ⟨8, 0⟩, 1, ("")⟩

/-- The biweekly marker bold is preceded by a date-constraint bold. -/
def cellC8 : Node := .elem ("td") []
  [.elem ("a") [("subject_name")] [.text ("Algo")],
   .elem ("b") [] [.text ("do 01.01.2025")],
   .elem ("b") [] [.text ("co 3 tygodnie")]]

def fragC8 : Frag :=
  ⟨("Algo"), ("Zajęcia"), (""), (""), (""), ("1"), ("do 01.01.2025")⟩

/-- A cell holding only an anchor with empty text. -/
def cellC9 : Node := .elem ("td") [] [.elem ("a") [("subject_name")] []]

/-- Slot boundaries 00:30 and 23:40; one event spans both rows, so the
one-hour fallback fires on the 23:40 boundary. -/
def docC10 : Node := .elem ("html") []
  [.elem ("table") [("table")] [trOf ("00:30") cellF, trOf ("23:40") cellF]]

def evC10 : ScheduleEvent :=
  ⟨("Algo"), ("Zajęcia"), (""), ("EA 101"), 0, ⟨0, 30⟩, ⟨0, 40⟩, 1, ("")⟩

/-- First bold sibling carries the biweekly phrase. -/
def cellB2 : Node := .elem ("td") []
  [.elem ("a") [("subject_name")] [.text ("Algo")],
   .elem ("b") [] [.text ("co 2 tygodnie")]]

/-- First bold sibling carries a three-week phrase. -/
def cellB3 : Node := .elem ("td") []
  [.elem ("a") [("subject_name")] [.text ("Algo")],
   .elem ("b") [] [.text ("co 3 tygodnie")]]

/-- Hours 07:00-10:00 and a single-fragment column whose rows 0-2 hold
the same fragment: a clean three-slot run. -/
def hours4 : List PyTime := [⟨7, 0⟩, ⟨8, 0⟩, ⟨9, 0⟩, ⟨10, 0⟩]

def gridS : Grid := [[[fragF]], [[fragF]], [[fragF]], [[]]]

/-- A cell whose first child is a course-name anchor with text `nm`,
followed by the sibling list `rest`. -/
def cellAnchor (nm : String) (rest : List Node) : Node :=
  .elem ("td") [] (.elem ("a") [("subject_name")] [.text nm] :: rest)

/-- A `<b>` element with one text child. -/
def bNode (m : String) : Node := .elem ("b") [] [.text m]

/-- The cell (its computed text) is blank, so `_parse_cell_content`
returns before looking at anchors. -/
def cellBlank (cell : Node) : Prop :=
  Node.getText (" ") true cell = "" ∨ pyIsSpace (Node.getText (" ") true cell)

instance (cell : Node) : Decidable (cellBlank cell) := by
  unfold cellBlank; infer_instance

/-! # Theorems -/

/-! ## Helper lemmas -/

theorem ltb_eq_not_leb (a b : PyTime) : PyTime.ltb a b = !PyTime.leb b a := by
  rcases a with ⟨h1, m1⟩
  rcases b with ⟨h2, m2⟩
  rw [Bool.eq_iff_iff]
  simp only [PyTime.ltb, PyTime.leb, Bool.not_eq_true', Bool.or_eq_true,
    Bool.and_eq_true, Bool.or_eq_false_iff, Bool.and_eq_false_iff,
    decide_eq_true_eq, decide_eq_false_iff_not]
  omega

theorem make_ok_inv {cn et ins rm : String} {wd : Int} {st en : PyTime} {ri : Int}
    {tc : String} {e : ScheduleEvent}
    (h : ScheduleEvent.make cn et ins rm wd st en ri tc = .ok e) : eventInv e := by
  unfold ScheduleEvent.make at h
  split_ifs at h with h1 h2 h3
  injection h with h
  subst h
  have hlt : PyTime.ltb st en = true := by
    rw [ltb_eq_not_leb]
    cases hx : PyTime.leb en st
    · rfl
    · exact absurd hx h2
  show (0 ≤ wd ∧ wd ≤ 4) ∧ PyTime.ltb st en = true ∧ 1 ≤ ri
  push_neg at h1
  exact ⟨h1, hlt, by omega⟩

theorem materialize_ok_inv {f : Frag} {col : Nat} {st en : PyTime} {e : ScheduleEvent}
    (h : materializeEvent f col st en = .ok e) : eventInv e := by
  unfold materializeEvent at h
  cases hpi : pyInt f.repeat_interval with
  | none => rw [hpi] at h; exact absurd h (by simp)
  | some ri => rw [hpi] at h; exact make_ok_inv h

mutual
theorem linkCtxs_map_fst (n : Node) :
    (Node.linkCtxs n).map (fun c => c.1) = Node.findAll isSubjectLink n := by
  cases n with
  | text s => rfl
  | elem nm cs ch =>
      show (Node.linkCtxsL [] ch).map (fun c => c.1) = Node.findAllL isSubjectLink ch
      exact linkCtxsL_map_fst [] ch
theorem linkCtxsL_map_fst (before ns : List Node) :
    (Node.linkCtxsL before ns).map (fun c => c.1) = Node.findAllL isSubjectLink ns := by
  cases ns with
  | nil => rfl
  | cons c cs =>
      show ((if isSubjectLink c then [(c, before, cs)] else []) ++
        Node.linkCtxs c ++ Node.linkCtxsL (c :: before) cs).map (fun x => x.1) =
        (if isSubjectLink c then [c] else []) ++ Node.findAll isSubjectLink c ++
          Node.findAllL isSubjectLink cs
      rw [List.map_append, List.map_append, linkCtxs_map_fst c,
        linkCtxsL_map_fst (c :: before) cs]
      cases isSubjectLink c <;> simp
end

/-- The per-fragment course name is the anchor's stripped text. -/
theorem parse_cell_content_names (cell : Node) :
    (parse_cell_content cell).map Frag.course_name =
      if Node.getText (" ") true cell = "" ∨ pyIsSpace (Node.getText (" ") true cell) then []
      else (Node.findAll isSubjectLink cell).map (Node.getText ("") true) := by
  unfold parse_cell_content
  by_cases hb : Node.getText (" ") true cell = "" ∨ pyIsSpace (Node.getText (" ") true cell)
  · simp [hb]
  · rw [if_neg hb, if_neg hb]
    have h1 := linkCtxs_map_fst cell
    cases hx : Node.linkCtxs cell with
    | nil => rw [hx] at h1; simp [← h1]
    | cons c cs =>
        rw [hx] at h1
        rw [← h1, List.map_map, List.map_map]
        rfl

/-- When the span reaches past the last boundary, the fallback end time
is one hour (mod 24) past the last boundary, with its minute. -/
theorem computeEnd_past_end (hours : List PyTime) (row span : Nat)
    (h1 : hours ≠ []) (h2 : hours.length ≤ row + span) :
    computeEnd hours row span =
      ⟨((hours.getLast h1).hour + 1) % 24, (hours.getLast h1).minute⟩ := by
  unfold computeEnd
  have hlen : 0 < hours.length := List.length_pos.mpr h1
  have hne : ¬ row + span < hours.length := by omega
  have hmin : min (row + span) (hours.length - 1) = hours.length - 1 := by omega
  have hget : hours.getD (hours.length - 1) ⟨0, 0⟩ = hours.getLast h1 := by
    rw [List.getLast_eq_getElem]
    rw [List.getD_eq_getElem?_getD, List.getElem?_eq_getElem (by omega)]
    rfl
  simp only [hmin, if_neg hne, hget]

/-! ## Claim C3 -/

/-- Claim C3 counterexample: in `docC3` one merged event spans both
slots, past the last boundary; the code's fallback yields 09:00 (one
hour past the 08:00 last boundary), not 08:00 (one hour past the 07:00
start) as the claim states. -/
theorem C3_counterexample :
    parse_events (some docC3) = .ok [evC3] ∧ evC3.start_time = ⟨7, 0⟩ ∧
      evC3.end_time = ⟨9, 0⟩ ∧ evC3.end_time ≠ ⟨8, 0⟩ :=
  ⟨rfl, rfl, rfl, by decide⟩

/-- Claim C3, amended: when the span reaches past the last slot, the end
time is one hour past the **last slot boundary** (same minute as that
boundary), which coincides with "start + 1 hour" only for events whose
span is exactly the final slot. -/
theorem C3_fallback_end_amended (hours : List PyTime) (row span : Nat)
    (h1 : hours ≠ []) (h2 : hours.length ≤ row + span) :
    computeEnd hours row span =
      ⟨((hours.getLast h1).hour + 1) % 24, (hours.getLast h1).minute⟩ :=
  computeEnd_past_end hours row span h1 h2

/-- Witness for `C3_fallback_end_amended` at the `docC3` slot boundaries. -/
theorem C3_fallback_end_amended_witness :
    computeEnd [⟨7, 0⟩, ⟨8, 0⟩] 0 2 = ⟨9, 0⟩ :=
  C3_fallback_end_amended [⟨7, 0⟩, ⟨8, 0⟩] 0 2 (by decide) (by decide)

/-! ## Claim C5 -/

/-- Claim C5 counterexample: after one fetch, a second `parse_events`
call (no intervening fetch) succeeds and returns the same event list —
`_soup` is never cleared — instead of raising "no schedule data loaded". -/
theorem C5_counterexample :
    (parse_events_st ((parse_events_st ((fetch_schedule ⟨none⟩ doc0).1)).2)).1 =
      .ok [evAlg] :=
  rfl

/-- Claim C5, amended: `parse_events` never mutates the scraper state, so
after one fetch every further call returns the same result as the first;
the "no schedule data loaded" error occurs exactly when no document has
been stored. -/
theorem C5_repeated_parse_amended :
    (∀ st : ScraperState, (parse_events_st st).2 = st) ∧
    (parse_events_st ⟨none⟩).1 =
      .error (.runtimeError ("No schedule data loaded. Call fetch_schedule() first.")) ∧
    (∀ (st : ScraperState) (page : Node),
      (parse_events_st ((parse_events_st ((fetch_schedule st page).1)).2)).1 =
        (parse_events_st ((fetch_schedule st page).1)).1) :=
  ⟨fun _ => rfl, rfl, fun _ _ => rfl⟩

/-! ## Claim C6 (counterexample) -/

/-- Claim C6 counterexample: in `docC6` the first time row has zero
weekday cells, so the column loop `range(min(5, len(cell_grid[0])))`
processes no columns at all; the Monday fragment of the second row (which
`_parse_cell_content` does extract) is lost, contradicting "events in
other rows of those columns are still produced". -/
theorem C6_counterexample :
    parse_cell_content cellF = [fragF] ∧ parse_events (some docC6) = .ok [] :=
  ⟨rfl, rfl⟩

/-! ## Claim C7 -/

/-- Claim C7 counterexample: the anchor of `cellC7` has empty text, yet a
fragment is emitted (course name is never checked for non-emptiness), and
`docC7` even yields an output event with an empty course name. -/
theorem C7_counterexample :
    parse_cell_content cellC7 = [fragC7] ∧ fragC7.course_name = "" ∧
      parse_events (some docC7) = .ok [evC7] ∧ evC7.course_name = "" :=
  ⟨rfl, rfl, rfl, rfl⟩

/-- Claim C7, amended: in a cell whose overall text is non-blank, every
course-name anchor yields a fragment — one per anchor, in document order
— whose course name is the anchor's stripped text, which may be empty;
non-emptiness of the course name is not enforced anywhere. -/
theorem C7_course_name_amended (cell : Node) :
    (parse_cell_content cell).map Frag.course_name =
      if Node.getText (" ") true cell = "" ∨ pyIsSpace (Node.getText (" ") true cell) then []
      else (Node.findAll isSubjectLink cell).map (Node.getText ("") true) :=
  parse_cell_content_names cell

/-! ## Claim C9 -/

/-- Claim C9 counterexample: `cellC9` contains one course-name anchor but
its whole text is blank, so the emptiness test returns before anchors are
counted: zero fragments from one anchor. -/
theorem C9_counterexample :
    parse_cell_content cellC9 = [] ∧ (Node.findAll isSubjectLink cellC9).length = 1 :=
  ⟨rfl, rfl⟩

/-- Claim C9, amended: the fragment count equals the anchor count only
for cells whose overall text is non-blank; a blank cell yields zero
fragments regardless of how many anchors it holds. -/
theorem C9_fragment_count_amended (cell : Node) :
    (parse_cell_content cell).length =
      if Node.getText (" ") true cell = "" ∨ pyIsSpace (Node.getText (" ") true cell) then 0
      else (Node.findAll isSubjectLink cell).length := by
  have h := parse_cell_content_names cell
  have h1 : ((parse_cell_content cell).map Frag.course_name).length =
      (parse_cell_content cell).length := List.length_map _ _
  rw [← h1, h]
  by_cases hb : Node.getText (" ") true cell = "" ∨ pyIsSpace (Node.getText (" ") true cell)
  · simp [hb]
  · simp [hb]

/-! ## Claim C8 -/

theorem getText_b (m : String) :
    Node.getText ("") true (Node.elem ("b") [] [Node.text m]) = pyStrip m := by
  show String.intercalate ("") (([m].map pyStrip).filter (fun t => decide (t ≠ ""))) = pyStrip m
  by_cases h : pyStrip m = ""
  · rw [List.map_cons, List.map_nil, List.filter_cons_of_neg (by simp [h])]
    exact h.symm
  · rw [List.map_cons, List.map_nil, List.filter_cons_of_pos (by simp [h])]
    rfl

/-- The head fragment of a non-blank cell starting with a course anchor:
its repeat interval is the sibling-walk override (default `"1"`) passed
through the windowed fallback. -/
theorem parse_cell_head_interval (nm : String) (rest : List Node)
    (hnb : ¬ cellBlank (cellAnchor nm rest)) :
    (parse_cell_content (cellAnchor nm rest)).head?.map Frag.repeat_interval =
      some (intervalFallback (Node.ser (cellAnchor nm rest))
        (Node.ser (Node.elem ("a") [("subject_name")] [Node.text nm]))
        (pyLower (Node.getText (" ") true (cellAnchor nm rest)))
        (((walkNext rest).2.2).getD ("1"))) := by
  unfold parse_cell_content
  rw [if_neg (show ¬ (Node.getText (" ") true (cellAnchor nm rest) = "" ∨
    pyIsSpace (Node.getText (" ") true (cellAnchor nm rest)) = true) from hnb)]
  have hctx : Node.linkCtxs (cellAnchor nm rest) =
      (Node.elem ("a") [("subject_name")] [Node.text nm], ([] : List Node), rest) ::
        Node.linkCtxsL [Node.elem ("a") [("subject_name")] [Node.text nm]] rest := by
    show Node.linkCtxsL [] (Node.elem ("a") [("subject_name")] [Node.text nm] :: rest) = _
    rw [Node.linkCtxsL]
    rw [if_pos (by rfl)]
    rfl
  rw [hctx]
  rfl

/-- Claim C8 counterexample: in `cellC8` the bold phrase "co 3 tygodnie"
follows a date-constraint bold; the sibling walk stops at the first bold
and the fallback only knows the biweekly phrase, so the interval stays 1
rather than becoming 3. -/
theorem C8_counterexample :
    parse_cell_content cellC8 = [fragC8] ∧ fragC8.repeat_interval = ("1") ∧
      fragC8.repeat_interval ≠ ("3") :=
  ⟨rfl, rfl, by decide⟩

/-- Claim C8, amended: only the first bold sibling after the anchor is
inspected — if its text holds "co 2 tygodn" the interval becomes 2, else
a "co N tygodn" match sets N (here: when N is not 1, keeping the fallback
inert); a later bold's phrase is seen only by the 500-character windowed
fallback, which handles solely the biweekly phrase; with no sibling
override and no biweekly phrase in the cell text the interval stays 1. -/
theorem C8_interval_amended :
    (∀ (nm m : String) (rest : List Node),
      ¬ cellBlank (cellAnchor nm (bNode m :: rest)) →
      dateConstraintSearch (pyStrip m) = false →
      strContains (pyLower (pyStrip m)) ("co 2 tygodn") = true →
      (parse_cell_content (cellAnchor nm (bNode m :: rest))).head?.map Frag.repeat_interval =
        some ("2")) ∧
    (∀ (nm m : String) (rest : List Node) (ds : String),
      ¬ cellBlank (cellAnchor nm (bNode m :: rest)) →
      dateConstraintSearch (pyStrip m) = false →
      strContains (pyLower (pyStrip m)) ("co 2 tygodn") = false →
      coNSearch (pyLower (pyStrip m)) = some ds →
      ds ≠ ("1") →
      (parse_cell_content (cellAnchor nm (bNode m :: rest))).head?.map Frag.repeat_interval =
        some ds) ∧
    (∀ (nm : String) (rest : List Node),
      ¬ cellBlank (cellAnchor nm rest) →
      (walkNext rest).2.2 = none →
      strContains (pyLower (Node.getText (" ") true (cellAnchor nm rest))) ("co 2 tygodn") = false →
      (parse_cell_content (cellAnchor nm rest)).head?.map Frag.repeat_interval =
        some ("1")) := by
  have hwalk : ∀ (m : String) (rest : List Node),
      walkNext (bNode m :: rest) =
        (if dateConstraintSearch (pyStrip m) then ([], some (pyStrip m), none)
         else if strContains (pyLower (pyStrip m)) ("co 2 tygodn") then ([], none, some ("2"))
         else match coNSearch (pyLower (pyStrip m)) with
           | some n => ([], none, some n)
           | none => ([], none, none)) := by
    intro m rest
    simp only [walkNext, bNode]
    rw [if_pos trivial, getText_b]
    rw [if_neg (show ¬ ("b" : String) = ("br") by decide)]
  refine ⟨?_, ?_, ?_⟩
  · intro nm m rest hnb hdate hco2
    rw [parse_cell_head_interval nm (bNode m :: rest) hnb, hwalk]
    rw [if_neg (by simp [hdate]), if_pos hco2]
    show some (intervalFallback _ _ _ ("2")) = some ("2")
    unfold intervalFallback
    rw [if_neg (by simp)]
  · intro nm m rest ds hnb hdate hco2 hcoN hne
    rw [parse_cell_head_interval nm (bNode m :: rest) hnb, hwalk]
    rw [if_neg (by simp [hdate]), if_neg (by simp [hco2]), hcoN]
    show some (intervalFallback _ _ _ ds) = some ds
    unfold intervalFallback
    rw [if_neg (by simp [hne])]
  · intro nm rest hnb hw hfull
    rw [parse_cell_head_interval nm rest hnb, hw]
    show some (intervalFallback _ _ _ ("1")) = some ("1")
    unfold intervalFallback
    rw [if_neg (by simp [hfull])]

/-- Witness for `C8_interval_amended`: a biweekly first bold gives "2", a
three-week first bold gives "3", and no marker at all gives "1". -/
theorem C8_interval_amended_witness :
    (parse_cell_content cellB2).head?.map Frag.repeat_interval = some ("2") ∧
    (parse_cell_content cellB3).head?.map Frag.repeat_interval = some ("3") ∧
    (parse_cell_content (cellAnchor ("Algo") [])).head?.map Frag.repeat_interval =
      some ("1") :=
  ⟨C8_interval_amended.1 ("Algo") ("co 2 tygodnie") [] (by decide) (by decide) (by decide),
   C8_interval_amended.2.1 ("Algo") ("co 3 tygodnie") [] ("3") (by decide) (by decide)
     (by decide) (by decide) (by decide),
   C8_interval_amended.2.2 ("Algo") [] (by decide) rfl (by decide)⟩

/-! ## Claim C10 -/

/-- Claim C10 counterexample: in `docC10` the fallback applies on the
23:40 last boundary, the end hour wraps to 0, but the merged event starts
at 00:30, so 00:40 is strictly after the start: the record passes
validation and an output event **is** produced. -/
theorem C10_counterexample :
    parse_events (some docC10) = .ok [evC10] ∧ evC10.end_time = ⟨0, 40⟩ ∧
      PyTime.ltb evC10.start_time evC10.end_time = true :=
  ⟨rfl, rfl, rfl⟩

/-- Claim C10, amended: with the fallback on a 23:xx last boundary the
end hour wraps to 0 with the boundary's minute; the record then fails
validation and is dropped unless the merged start is 0:xx with a minute
before that boundary's minute (possible only for boundary sequences that
wrap past midnight); in particular an event spanning exactly the 23:xx
last slot is always dropped. -/
theorem C10_wrap_amended :
    (∀ (hours : List PyTime) (row span : Nat) (h1 : hours ≠ []),
      hours.length ≤ row + span → (hours.getLast h1).hour = 23 →
      computeEnd hours row span = ⟨0, (hours.getLast h1).minute⟩) ∧
    (∀ (f : Frag) (col : Nat) (st : PyTime) (lastMin : Nat),
      ¬ (st.hour = 0 ∧ st.minute < lastMin) →
      (materializeEvent f col st ⟨0, lastMin⟩).toOption = none) ∧
    (∀ (f : Frag) (col : Nat) (m m2 : Nat),
      (materializeEvent f col ⟨23, m⟩ ⟨0, m2⟩).toOption = none) := by
  have hb : ∀ (f : Frag) (col : Nat) (st : PyTime) (lastMin : Nat),
      ¬ (st.hour = 0 ∧ st.minute < lastMin) →
      (materializeEvent f col st ⟨0, lastMin⟩).toOption = none := by
    intro f col st lastMin hsm
    unfold materializeEvent
    cases hpi : pyInt f.repeat_interval with
    | none => rfl
    | some ri =>
        unfold ScheduleEvent.make
        have hleb : PyTime.leb ⟨0, lastMin⟩ st = true := by
          rcases st with ⟨sh, sm⟩
          simp only [PyTime.leb, Bool.or_eq_true, Bool.and_eq_true, decide_eq_true_eq]
          simp only [not_and, not_lt] at hsm
          omega
        split_ifs with h1 h2 h3 <;> first | rfl | exact absurd hleb (by simp [h2])
  refine ⟨?_, hb, ?_⟩
  · intro hours row span h1 h2 h23
    rw [computeEnd_past_end hours row span h1 h2, h23]
  · intro f col m m2
    exact hb f col ⟨23, m⟩ m2 (by simp)

/-- Witness for `C10_wrap_amended`: the single-slot 23:00 case. -/
theorem C10_wrap_amended_witness :
    computeEnd [⟨23, 0⟩] 0 1 = ⟨0, 0⟩ ∧
      (materializeEvent fragF 0 ⟨23, 10⟩ ⟨0, 20⟩).toOption = none ∧
      (materializeEvent fragF 0 ⟨23, 0⟩ ⟨0, 0⟩).toOption = none :=
  ⟨C10_wrap_amended.1 [⟨23, 0⟩] 0 1 (by decide) (by decide) (by decide),
   C10_wrap_amended.2.1 fragF 0 ⟨23, 10⟩ 20 (by decide),
   C10_wrap_amended.2.2 fragF 0 0 0⟩

/-! ## The traversal equals merged records + validation filter -/

theorem mergedCellFrags_acc (grid : Grid) (col row : Nat) (fs : List Frag)
    (P : List PKey) (acc : List MergedRec) :
    mergedCellFrags grid col row fs P acc =
      (acc ++ (mergedCellFrags grid col row fs P []).1,
       (mergedCellFrags grid col row fs P []).2) := by
  induction fs generalizing P acc with
  | nil => simp [mergedCellFrags]
  | cons f fs ih =>
      unfold mergedCellFrags
      by_cases h : P.contains (row, col, f.course_name)
      · simp only [if_pos h]
        exact ih P acc
      · simp only [if_neg h]
        rw [ih _ (acc ++ _), ih _ ([] ++ _)]
        simp

theorem processCellFrags_eq (hours : List PyTime) (grid : Grid) (col row : Nat)
    (fs : List Frag) (P : List PKey) (acc : List ScheduleEvent) :
    processCellFrags hours grid col row fs P acc =
      (acc ++ ((mergedCellFrags grid col row fs P []).1).filterMap (matRec hours),
       (mergedCellFrags grid col row fs P []).2) := by
  induction fs generalizing P acc with
  | nil => simp [processCellFrags, mergedCellFrags]
  | cons f fs ih =>
      unfold processCellFrags mergedCellFrags
      by_cases h : P.contains (row, col, f.course_name)
      · simp only [if_pos h]
        exact ih P acc
      · simp only [if_neg h]
        have hrec : matRec hours
            (⟨f, col, row, 1 + (spanScan grid col f (row + 1) P).1⟩ : MergedRec) =
            (materializeEvent f col (hours.getD row ⟨0, 0⟩)
              (computeEnd hours row (1 + (spanScan grid col f (row + 1) P).1))).toOption := rfl
        cases hm : materializeEvent f col (hours.getD row ⟨0, 0⟩)
            (computeEnd hours row (1 + (spanScan grid col f (row + 1) P).1)) with
        | ok e =>
            dsimp only
            rw [ih _ (acc ++ [e])]
            simp only [List.nil_append]
            rw [mergedCellFrags_acc grid col row fs
              ((row, col, f.course_name) :: (spanScan grid col f (row + 1) P).2)
              [⟨f, col, row, 1 + (spanScan grid col f (row + 1) P).1⟩]]
            have hsome : matRec hours
                (⟨f, col, row, 1 + (spanScan grid col f (row + 1) P).1⟩ : MergedRec) =
                some e := by rw [hrec, hm]; rfl
            simp only [List.filterMap_append, List.filterMap_cons, hsome,
              List.filterMap_nil, List.nil_append, List.append_assoc,
              List.singleton_append]
        | error msg =>
            dsimp only
            rw [ih _ acc]
            simp only [List.nil_append]
            rw [mergedCellFrags_acc grid col row fs
              ((row, col, f.course_name) :: (spanScan grid col f (row + 1) P).2)
              [⟨f, col, row, 1 + (spanScan grid col f (row + 1) P).1⟩]]
            have hnone : matRec hours
                (⟨f, col, row, 1 + (spanScan grid col f (row + 1) P).1⟩ : MergedRec) =
                none := by rw [hrec, hm]; rfl
            simp only [List.filterMap_append, List.filterMap_cons, hnone,
              List.filterMap_nil, List.nil_append, List.append_assoc]

theorem mergedRowsF_acc (grid : Grid) (col : Nat) (fuel : Nat) :
    ∀ (row : Nat) (P : List PKey) (acc : List MergedRec),
    mergedRowsF grid col fuel row P acc =
      (acc ++ (mergedRowsF grid col fuel row P []).1,
       (mergedRowsF grid col fuel row P []).2) := by
  induction fuel with
  | zero => intro row P acc; simp [mergedRowsF]
  | succ fuel ih =>
      intro row P acc
      unfold mergedRowsF
      by_cases h : row < grid.length
      · simp only [if_pos h]
        cases hc : cellAt grid row col with
        | none => exact ih (row + 1) P acc
        | some cell =>
            dsimp only
            rw [mergedCellFrags_acc grid col row cell P acc]
            dsimp only
            rw [ih (row + 1) ((mergedCellFrags grid col row cell P []).2)
              (acc ++ (mergedCellFrags grid col row cell P []).1)]
            rw [ih (row + 1) ((mergedCellFrags grid col row cell P []).2)
              ((mergedCellFrags grid col row cell P []).1)]
            simp [List.append_assoc]
      · simp [if_neg h]

theorem processRowsF_eq (hours : List PyTime) (grid : Grid) (col : Nat) (fuel : Nat) :
    ∀ (row : Nat) (P : List PKey) (acc : List ScheduleEvent),
    processRowsF hours grid col fuel row P acc =
      (acc ++ ((mergedRowsF grid col fuel row P []).1).filterMap (matRec hours),
       (mergedRowsF grid col fuel row P []).2) := by
  induction fuel with
  | zero => intro row P acc; simp [processRowsF, mergedRowsF]
  | succ fuel ih =>
      intro row P acc
      unfold processRowsF mergedRowsF
      by_cases h : row < grid.length
      · simp only [if_pos h]
        cases hc : cellAt grid row col with
        | none => exact ih (row + 1) P acc
        | some cell =>
            dsimp only
            rw [processCellFrags_eq hours grid col row cell P acc]
            dsimp only
            rw [ih (row + 1) _ (acc ++ _)]
            rw [mergedCellFrags_acc grid col row cell P ([] : List MergedRec)]
            dsimp only
            rw [mergedRowsF_acc grid col fuel (row + 1) _
              ([] ++ (mergedCellFrags grid col row cell P []).1)]
            simp [List.filterMap_append]
      · simp [if_neg h]

theorem mergedColsFold_acc (grid : Grid) (cols : List Nat) :
    ∀ (P : List PKey) (acc : List MergedRec),
    mergedColsFold grid cols P acc = acc ++ mergedColsFold grid cols P [] := by
  induction cols with
  | nil => intro P acc; simp [mergedColsFold]
  | cons c cs ih =>
      intro P acc
      show mergedColsFold grid cs (mergedRows grid c 0 P acc).2
          (mergedRows grid c 0 P acc).1 =
        acc ++ mergedColsFold grid cs (mergedRows grid c 0 P []).2
          (mergedRows grid c 0 P []).1
      unfold mergedRows
      rw [mergedRowsF_acc grid c _ 0 P acc]
      dsimp only
      rw [ih _ (acc ++ (mergedRowsF grid c (grid.length - 0) 0 P []).1)]
      rw [ih ((mergedRowsF grid c (grid.length - 0) 0 P []).2)
        ((mergedRowsF grid c (grid.length - 0) 0 P []).1)]
      simp

theorem processColsFold_eq (hours : List PyTime) (grid : Grid) (cols : List Nat) :
    ∀ (P : List PKey) (acc : List ScheduleEvent),
    processColsFold hours grid cols P acc =
      acc ++ (mergedColsFold grid cols P []).filterMap (matRec hours) := by
  induction cols with
  | nil => intro P acc; simp [processColsFold, mergedColsFold]
  | cons c cs ih =>
      intro P acc
      show processColsFold hours grid cs (processRows hours grid c 0 P acc).2
          (processRows hours grid c 0 P acc).1 =
        acc ++ (mergedColsFold grid cs (mergedRows grid c 0 P []).2
          (mergedRows grid c 0 P []).1).filterMap (matRec hours)
      unfold processRows mergedRows
      rw [processRowsF_eq hours grid c _ 0 P acc]
      dsimp only
      rw [ih _ (acc ++ _)]
      rw [mergedColsFold_acc grid cs ((mergedRowsF grid c (grid.length - 0) 0 P []).2)
        ((mergedRowsF grid c (grid.length - 0) 0 P []).1)]
      simp [List.filterMap_append, List.append_assoc]


/-- `parse_events`' merging phase materializes each merged record and
keeps exactly those that pass validation. -/
theorem processGrid_eq_filterMap (hours : List PyTime) (grid : Grid) :
    processGrid hours grid = (mergedRecords grid).filterMap (matRec hours) := by
  unfold processGrid mergedRecords
  rw [processColsFold_eq]
  simp

/-! ## Claim C1 -/

/-- Claim C1: every `ScheduleEvent` in a normally returned list satisfies
weekday ∈ [0,4], start strictly before end, repeat interval ≥ 1; and
constructing a record violating any of these raises `ValueError`. -/
theorem C1_event_invariants :
    (∀ (soup : Option Node) (evs : List ScheduleEvent),
      parse_events soup = .ok evs → ∀ e ∈ evs, eventInv e) ∧
    (∀ (cn et ins rm : String) (wd : Int) (st en : PyTime) (ri : Int) (tc : String),
      ¬ ((0 ≤ wd ∧ wd ≤ 4) ∧ PyTime.ltb st en = true ∧ 1 ≤ ri) →
      ∃ msg, ScheduleEvent.make cn et ins rm wd st en ri tc = .error msg) := by
  constructor
  · intro soup evs hok e he
    cases soup with
    | none => exact absurd hok (by simp [parse_events])
    | some s =>
        unfold parse_events parse_events_doc at hok
        dsimp only at hok
        cases hft : findTable s with
        | none => rw [hft] at hok; exact absurd hok (by simp)
        | some t =>
            rw [hft] at hok
            dsimp only at hok
            by_cases hh : ((buildRows (Node.findAll isTr t)).1).isEmpty
            · rw [if_pos hh] at hok
              exact absurd hok (by simp)
            · rw [if_neg hh] at hok
              injection hok with hok
              subst hok
              rw [processGrid_eq_filterMap] at he
              obtain ⟨rec, _, hmat⟩ := List.mem_filterMap.mp he
              unfold matRec at hmat
              cases hme : materializeEvent rec.frag rec.col
                  (((buildRows (Node.findAll isTr t)).1).getD rec.row ⟨0, 0⟩)
                  (computeEnd (buildRows (Node.findAll isTr t)).1 rec.row rec.span) with
              | ok a =>
                  rw [hme] at hmat
                  have : a = e := by
                    simpa [Except.toOption] using hmat
                  subst this
                  exact materialize_ok_inv hme
              | error m =>
                  rw [hme] at hmat
                  exact absurd hmat (by simp [Except.toOption])
  · intro cn et ins rm wd st en ri tc hviol
    unfold ScheduleEvent.make
    by_cases h1 : 0 ≤ wd ∧ wd ≤ 4
    · by_cases h2 : PyTime.ltb st en = true
      · have h3 : ri < 1 := by
          by_contra hc
          exact hviol ⟨h1, h2, by omega⟩
        have hleb : PyTime.leb en st = false := by
          have hx := ltb_eq_not_leb st en
          rw [h2] at hx
          cases hy : PyTime.leb en st
          · rfl
          · rw [hy] at hx; exact absurd hx.symm (by simp)
        exact ⟨_, by rw [if_neg (not_not_intro h1), if_neg (by simp [hleb]), if_pos h3]⟩
      · have hleb : PyTime.leb en st = true := by
          have hx := ltb_eq_not_leb st en
          cases hy : PyTime.leb en st
          · rw [hy] at hx
            exact absurd hx (by simpa using h2)
          · rfl
        exact ⟨_, by rw [if_neg (not_not_intro h1), if_pos hleb]⟩
    · exact ⟨_, by rw [if_pos h1]⟩

/-- Witness for `C1_event_invariants`: the `doc0` event satisfies the
invariants; a weekday-5 construction fails. -/
theorem C1_event_invariants_witness :
    eventInv evAlg ∧
      (∃ msg, ScheduleEvent.make ("X") ("Y") ("") ("") 5 ⟨7, 0⟩ ⟨8, 0⟩ 1 ("") =
        .error msg) :=
  ⟨C1_event_invariants.1 (some doc0) [evAlg] rfl evAlg (by simp),
   C1_event_invariants.2 ("X") ("Y") ("") ("") 5 ⟨7, 0⟩ ⟨8, 0⟩ 1 ("") (by decide)⟩

/-! ## Claim C4 -/

/-- Claim C4: `parse_events` raises exactly on (a) no loaded document,
(b) no table under either selector, (c) an empty slot-boundary list; in
every other case it returns a list, namely the merged records filtered
through (non-fatal) per-record validation. -/
theorem C4_fatal_errors :
    (parse_events none =
      .error (.runtimeError ("No schedule data loaded. Call fetch_schedule() first."))) ∧
    (∀ s : Node, findTable s = none →
      parse_events (some s) =
        .error (.valueError ("Schedule table not found in the page"))) ∧
    (∀ s t : Node, findTable s = some t →
      (buildRows (Node.findAll isTr t)).1 = [] →
      parse_events (some s) =
        .error (.valueError ("No time slots found in schedule table"))) ∧
    (∀ s t : Node, findTable s = some t →
      (buildRows (Node.findAll isTr t)).1 ≠ [] →
      parse_events (some s) =
        .ok ((mergedRecords (buildRows (Node.findAll isTr t)).2).filterMap
          (matRec (buildRows (Node.findAll isTr t)).1))) := by
  refine ⟨rfl, ?_, ?_, ?_⟩
  · intro s hft
    unfold parse_events parse_events_doc
    dsimp only
    rw [hft]
  · intro s t hft hh
    unfold parse_events parse_events_doc
    dsimp only
    rw [hft]
    dsimp only
    rw [if_pos (by simp [List.isEmpty_iff, hh])]
  · intro s t hft hh
    unfold parse_events parse_events_doc
    dsimp only
    rw [hft]
    dsimp only
    rw [if_neg (by simp [List.isEmpty_iff, hh])]
    rw [processGrid_eq_filterMap]

/-- Witness for `C4_fatal_errors` on the four concrete documents. -/
theorem C4_fatal_errors_witness :
    parse_events none =
      .error (.runtimeError ("No schedule data loaded. Call fetch_schedule() first.")) ∧
    parse_events (some docNoTable) =
      .error (.valueError ("Schedule table not found in the page")) ∧
    parse_events (some docNoHours) =
      .error (.valueError ("No time slots found in schedule table")) ∧
    parse_events (some doc0) =
      .ok ((mergedRecords (buildRows (Node.findAll isTr table0)).2).filterMap
        (matRec (buildRows (Node.findAll isTr table0)).1)) :=
  ⟨C4_fatal_errors.1,
   C4_fatal_errors.2.1 docNoTable rfl,
   C4_fatal_errors.2.2.1 docNoHours
     (.elem ("table") [("table")] [.elem ("tr") [] [.elem ("td") [] [.text ("Monday")]]])
     rfl rfl,
   C4_fatal_errors.2.2.2 doc0 table0 rfl (by decide)⟩

/-! ## Claim C6 (amended theorem) -/

theorem padGridRow_length (grid : Grid) (i : Nat) :
    (padGridRow grid i).length = grid.length := by
  unfold padGridRow
  exact List.length_set grid i _

/-- A padded grid reads like the original: every cell is unchanged,
except that at the padded row a missing cell may become an (equally
inert) empty cell. -/
theorem cellAt_pad (grid : Grid) (i row col : Nat) :
    cellAt (padGridRow grid i) row col = cellAt grid row col ∨
    (cellAt grid row col = none ∧ cellAt (padGridRow grid i) row col = some []) := by
  unfold cellAt padGridRow
  by_cases hrow : row = i
  · subst hrow
    by_cases hlt : row < grid.length
    · rw [List.getElem?_set_self (by simpa [padRow5] using hlt)]
      have hget : grid[row]? = some (grid.getD row []) := by
        rw [List.getD_eq_getElem?_getD, List.getElem?_eq_getElem hlt]
        rfl
      rw [hget]
      dsimp only
      unfold padRow5
      rw [List.getElem?_append]
      by_cases hcol : col < (grid.getD row []).length
      · left
        rw [if_pos hcol]
      · rw [if_neg hcol]
        rw [List.getElem?_replicate]
        by_cases hcol5 : col - (grid.getD row []).length < 5 - (grid.getD row []).length
        · right
          refine ⟨List.getElem?_eq_none (by omega), ?_⟩
          rw [if_pos hcol5]
        · left
          rw [if_neg hcol5]
          rw [List.getElem?_eq_none (by omega)]
    · left
      rw [List.set_eq_of_length_le (by omega)]
  · left
    rw [List.getElem?_set_ne (by omega)]

theorem spanScanF_pad (grid : Grid) (i col : Nat) (f : Frag) (fuel : Nat) :
    ∀ (nextRow : Nat) (P : List PKey),
    spanScanF (padGridRow grid i) col f fuel nextRow P =
      spanScanF grid col f fuel nextRow P := by
  induction fuel with
  | zero => intro nextRow P; rfl
  | succ fuel ih =>
      intro nextRow P
      unfold spanScanF
      rw [padGridRow_length]
      by_cases h : nextRow < grid.length
      · simp only [if_pos h]
        rcases cellAt_pad grid i nextRow col with heq | ⟨hnone, hsome⟩
        · rw [heq]
          cases hc : cellAt grid nextRow col with
          | none => rfl
          | some cell =>
              dsimp only
              cases hf : cell.find? (fun g => fragMatchB g f) with
              | none => rfl
              | some g => simp only [ih]
        · rw [hsome, hnone]
          rfl
      · simp only [if_neg h]

theorem processCellFrags_pad (hours : List PyTime) (grid : Grid) (i col row : Nat)
    (fs : List Frag) :
    ∀ (P : List PKey) (acc : List ScheduleEvent),
    processCellFrags hours (padGridRow grid i) col row fs P acc =
      processCellFrags hours grid col row fs P acc := by
  induction fs with
  | nil => intro P acc; rfl
  | cons f fs ih =>
      intro P acc
      unfold processCellFrags
      by_cases h : P.contains (row, col, f.course_name)
      · simp only [if_pos h]
        exact ih P acc
      · simp only [if_neg h]
        have hspan : spanScan (padGridRow grid i) col f (row + 1) P =
            spanScan grid col f (row + 1) P := by
          unfold spanScan
          rw [padGridRow_length, spanScanF_pad]
        rw [hspan]
        cases materializeEvent f col (hours.getD row ⟨0, 0⟩)
            (computeEnd hours row (1 + (spanScan grid col f (row + 1) P).1)) with
        | ok e => exact ih _ _
        | error m => exact ih _ _

theorem processRowsF_pad (hours : List PyTime) (grid : Grid) (i col : Nat) (fuel : Nat) :
    ∀ (row : Nat) (P : List PKey) (acc : List ScheduleEvent),
    processRowsF hours (padGridRow grid i) col fuel row P acc =
      processRowsF hours grid col fuel row P acc := by
  induction fuel with
  | zero => intro row P acc; rfl
  | succ fuel ih =>
      intro row P acc
      unfold processRowsF
      rw [padGridRow_length]
      by_cases h : row < grid.length
      · simp only [if_pos h]
        rcases cellAt_pad grid i row col with heq | ⟨hnone, hsome⟩
        · rw [heq]
          cases hc : cellAt grid row col with
          | none => exact ih (row + 1) P acc
          | some cell =>
              dsimp only
              rw [processCellFrags_pad hours grid i col row cell P acc]
              exact ih (row + 1) _ _
        · rw [hsome, hnone]
          dsimp only
          exact ih (row + 1) P acc
      · simp only [if_neg h]

theorem gridWidth_pad (grid : Grid) (i : Nat) (h : 0 < i) :
    gridWidth (padGridRow grid i) = gridWidth grid := by
  unfold padGridRow gridWidth
  cases grid with
  | nil => rfl
  | cons r rest =>
      cases i with
      | zero => omega
      | succ j => rfl

theorem processColsFold_pad (hours : List PyTime) (grid : Grid) (i : Nat)
    (cols : List Nat) :
    ∀ (P : List PKey) (acc : List ScheduleEvent),
    processColsFold hours (padGridRow grid i) cols P acc =
      processColsFold hours grid cols P acc := by
  induction cols with
  | nil => intro P acc; rfl
  | cons c cs ih =>
      intro P acc
      show processColsFold hours (padGridRow grid i) cs
          (processRows hours (padGridRow grid i) c 0 P acc).2
          (processRows hours (padGridRow grid i) c 0 P acc).1 =
        processColsFold hours grid cs (processRows hours grid c 0 P acc).2
          (processRows hours grid c 0 P acc).1
      have hpr : processRows hours (padGridRow grid i) c 0 P acc =
          processRows hours grid c 0 P acc := by
        unfold processRows
        rw [padGridRow_length, processRowsF_pad]
      rw [hpr, ih]

/-- Claim C6, amended: a short time row behaves as empty fragment lists
for that row only when it is **not** the first time row: padding any
non-first row with empty cells up to the five weekday columns never
changes the output.  (The first time row's cell count caps the whole
column range — see the counterexample — so the claim fails for it.) -/
theorem C6_short_row_amended (hours : List PyTime) (grid : Grid) (i : Nat)
    (h : 0 < i) :
    processGrid hours (padGridRow grid i) = processGrid hours grid := by
  unfold processGrid
  rw [gridWidth_pad grid i h]
  exact processColsFold_pad hours grid i _ [] []

/-- Witness for `C6_short_row_amended`: padding the empty second row. -/
theorem C6_short_row_amended_witness :
    processGrid [⟨7, 0⟩, ⟨8, 0⟩] (padGridRow [[[fragF]], []] 1) =
      processGrid [⟨7, 0⟩, ⟨8, 0⟩] [[[fragF]], []] :=
  C6_short_row_amended [⟨7, 0⟩, ⟨8, 0⟩] [[[fragF]], []] 1 (by decide)

/-! ## Claim C2 -/

/-- Claim C2 counterexample: in `docC2` column 0 rows 0-2 form a maximal
run of cells each containing the EA-101 fragment of course "Algo"
(`cellG` holds it after an EA-102 fragment of the same course, `cellF`
holds it alone), yet no output event carries that key with start 07:00
and end 10:00: the deduplication key is (row, col, course name) only, so
the EA-102 fragment's processing swallows the run's origin, and the run
is emitted as a shorter 08:00-10:00 event instead. -/
theorem C2_counterexample :
    parse_cell_content cellG = [fragG, fragF] ∧
    parse_cell_content cellF = [fragF] ∧
    parse_events (some docC2) = .ok [evGfirst, evG] ∧
    ([evGfirst, evG].filter (fun e =>
      e.course_name == ("Algo") && e.event_type == ("Zajęcia") &&
      e.room == ("EA 101") && e.weekday == (0 : Int) &&
      e.start_time == (⟨7, 0⟩ : PyTime) && e.end_time == (⟨10, 0⟩ : PyTime))) = [] :=
  ⟨rfl, rfl, rfl, rfl⟩

/-! ### Foundations for the amended run theorem -/

theorem fragMatchB_iff (g f : Frag) : fragMatchB g f = true ↔ fragKey g = fragKey f := by
  unfold fragMatchB fragKey
  simp only [Bool.and_eq_true, beq_iff_eq, Prod.mk.injEq]
  tauto

theorem ltb_irrefl (a : PyTime) : PyTime.ltb a a = false := by
  simp [PyTime.ltb]

theorem hoursStrictMono_getD_ne {hours : List PyTime} (h : hoursStrictMono hours)
    {i j : Nat} (hi : i < hours.length) (hj : j < hours.length) (hij : i ≠ j) :
    hours.getD i ⟨0, 0⟩ ≠ hours.getD j ⟨0, 0⟩ := by
  have key : ∀ a b : Nat, a < b → b < hours.length →
      hours.getD a ⟨0, 0⟩ ≠ hours.getD b ⟨0, 0⟩ := by
    intro a b hab hb
    have ha : a < hours.length := lt_trans hab hb
    have hlt := List.pairwise_iff_getElem.mp h a b ha hb hab
    rw [List.getD_eq_getElem?_getD, List.getElem?_eq_getElem ha,
      List.getD_eq_getElem?_getD, List.getElem?_eq_getElem hb]
    intro hcontra
    simp only [Option.getD_some] at hcontra
    rw [hcontra] at hlt
    rw [ltb_irrefl] at hlt
    exact absurd hlt (by simp)
  rcases Nat.lt_or_ge i j with hij2 | hij2
  · exact key i j hij2 hj
  · have : j < i := by omega
    exact fun hc => key j i this hi hc.symm

theorem make_ok_eq {cn et ins rm : String} {wd : Int} {st en : PyTime} {ri : Int}
    {tc : String} {e : ScheduleEvent}
    (h : ScheduleEvent.make cn et ins rm wd st en ri tc = .ok e) :
    e = ⟨cn, et, ins, rm, wd, st, en, ri, tc⟩ := by
  unfold ScheduleEvent.make at h
  split_ifs at h
  injection h with h
  exact h.symm

theorem materialize_ok_eq {f : Frag} {col : Nat} {st en : PyTime} {e : ScheduleEvent}
    (h : materializeEvent f col st en = .ok e) :
    ∃ ri, pyInt f.repeat_interval = some ri ∧
      e = ⟨f.course_name, f.event_type, f.instructor, f.room, Int.ofNat col, st, en,
        ri, f.event_type_code⟩ := by
  unfold materializeEvent at h
  cases hpi : pyInt f.repeat_interval with
  | none => rw [hpi] at h; exact absurd h (by simp)
  | some ri =>
      rw [hpi] at h
      exact ⟨ri, rfl, make_ok_eq h⟩

theorem materialize_ok_of {f : Frag} {col : Nat} {st en : PyTime} {ri : Int}
    (hpi : pyInt f.repeat_interval = some ri) (hri : 1 ≤ ri) (hcol : col ≤ 4)
    (hlt : PyTime.ltb st en = true) :
    materializeEvent f col st en =
      .ok ⟨f.course_name, f.event_type, f.instructor, f.room, Int.ofNat col, st, en,
        ri, f.event_type_code⟩ := by
  unfold materializeEvent
  rw [hpi]
  dsimp only
  unfold ScheduleEvent.make
  have h1 : (0 : Int) ≤ Int.ofNat col ∧ Int.ofNat col ≤ 4 :=
    ⟨Int.ofNat_nonneg col, Int.ofNat_le.mpr hcol⟩
  have h2 : PyTime.leb en st = false := by
    have hx := ltb_eq_not_leb st en
    rw [hlt] at hx
    cases hy : PyTime.leb en st
    · rfl
    · rw [hy] at hx; exact absurd hx.symm (by simp)
  rw [if_neg (not_not_intro h1), if_neg (by simp [h2]), if_neg (by omega)]

theorem colCell_of_cellAt_some {grid : Grid} {row col : Nat} {cell : Cell}
    (h : cellAt grid row col = some cell) : colCell grid col row = cell := by
  unfold cellAt at h
  unfold colCell
  cases hr : grid[row]? with
  | none => rw [hr] at h; exact absurd h (by simp)
  | some r =>
      rw [hr] at h
      dsimp only at h
      have hrow : grid.getD row [] = r := by
        rw [List.getD_eq_getElem?_getD, hr]; rfl
      rw [hrow]
      cases hc : r[col]? with
      | none => rw [hc] at h; exact absurd h (by simp)
      | some cell2 =>
          rw [hc] at h
          injection h with h
          rw [List.getD_eq_getElem?_getD, hc]
          exact h

theorem colCell_of_cellAt_none {grid : Grid} {row col : Nat}
    (h : cellAt grid row col = none) : colCell grid col row = [] := by
  unfold cellAt at h
  unfold colCell
  cases hr : grid[row]? with
  | none =>
      have hrow : grid.getD row [] = [] := by
        rw [List.getD_eq_getElem?_getD, hr]; rfl
      rw [hrow]
      rfl
  | some r =>
      rw [hr] at h
      dsimp only at h
      have hrow : grid.getD row [] = r := by
        rw [List.getD_eq_getElem?_getD, hr]; rfl
      rw [hrow, List.getD_eq_getElem?_getD, h]
      rfl

theorem cellAt_of_colCell_ne {grid : Grid} {row col : Nat}
    (h : colCell grid col row ≠ []) : cellAt grid row col = some (colCell grid col row) := by
  cases hc : cellAt grid row col with
  | none => exact absurd (colCell_of_cellAt_none hc) h
  | some cell => rw [colCell_of_cellAt_some hc]

/-- Generic transfer: if a record-level predicate decides the event-level
predicate through materialization, filtering commutes with `filterMap`. -/
theorem filter_filterMap_eq {α β : Type} (g : α → Option β) (p : β → Bool)
    (q : α → Bool) :
    ∀ recs : List α, (∀ rec ∈ recs, ∀ e, g rec = some e → p e = q rec) →
    ((recs.filterMap g).filter p) = (recs.filter q).filterMap g := by
  intro recs
  induction recs with
  | nil => intro _; rfl
  | cons rec recs ih =>
      intro hf
      have hrec := hf rec (by simp)
      have hrest : ∀ r ∈ recs, ∀ e, g r = some e → p e = q r := by
        intro r hr e hge
        exact hf r (by simp [hr]) e hge
      rw [List.filterMap_cons, List.filter_cons]
      cases hg : g rec with
      | none =>
          cases hq : q rec with
          | false =>
              simp only [Bool.false_eq_true, if_false]
              exact ih hrest
          | true =>
              simp only [if_true]
              rw [List.filterMap_cons, hg]
              exact ih hrest
      | some e =>
          dsimp only
          rw [List.filter_cons]
          have hpe : p e = q rec := hrec e hg
          cases hq : q rec with
          | false =>
              rw [hq] at hpe
              simp only [hpe, Bool.false_eq_true, if_false]
              exact ih hrest
          | true =>
              rw [hq] at hpe
              simp only [hpe, if_true]
              rw [List.filterMap_cons, hg, ih hrest]
theorem singleton_of_mem_len_le {α : Type} {l : List α} {a : α}
    (ha : a ∈ l) (hl : l.length ≤ 1) : l = [a] := by
  cases l with
  | nil => cases ha
  | cons x xs =>
      cases xs with
      | nil =>
          have := List.mem_singleton.mp ha
          rw [this]
      | cons y ys => simp at hl

theorem pkey_contains_iff (P : List PKey) (key : PKey) :
    P.contains key = true ↔ key ∈ P := List.elem_iff

/-! ### The span scan under run hypotheses -/

/-- The scan only grows the processed set. -/
theorem spanScanF_P_mono (grid : Grid) (col : Nat) (f : Frag) (fuel : Nat) :
    ∀ (nextRow : Nat) (P : List PKey) (key : PKey), key ∈ P →
      key ∈ (spanScanF grid col f fuel nextRow P).2 := by
  induction fuel with
  | zero => intro nextRow P key hk; exact hk
  | succ fuel ih =>
      intro nextRow P key hk
      unfold spanScanF
      by_cases h : nextRow < grid.length
      · simp only [if_pos h]
        cases hc : cellAt grid nextRow col with
        | none => exact hk
        | some cell =>
            dsimp only
            cases hf : cell.find? (fun g => fragMatchB g f) with
            | none => exact hk
            | some g =>
                dsimp only
                exact ih (nextRow + 1) _ key (by simp [hk])
      · simp only [if_neg h]
        exact hk

/-- Every key the scan adds sits in this column, at or after the scan
start, within the grid, and every row from the start to it holds a
fragment matching the scanned one. -/
theorem spanScanF_keys (grid : Grid) (col : Nat) (f : Frag) (fuel : Nat) :
    ∀ (nextRow : Nat) (P : List PKey) (key : PKey),
      key ∈ (spanScanF grid col f fuel nextRow P).2 → key ∈ P ∨
        (key.2.1 = col ∧ nextRow ≤ key.1 ∧ key.1 < grid.length ∧
          ∀ q, nextRow ≤ q → q ≤ key.1 →
            ∃ m ∈ colCell grid col q, fragMatchB m f = true) := by
  induction fuel with
  | zero => intro nextRow P key hk; exact Or.inl hk
  | succ fuel ih =>
      intro nextRow P key hk
      unfold spanScanF at hk
      by_cases h : nextRow < grid.length
      · rw [if_pos h] at hk
        cases hc : cellAt grid nextRow col with
        | none => rw [hc] at hk; exact Or.inl hk
        | some cell =>
            rw [hc] at hk
            dsimp only at hk
            cases hfind : cell.find? (fun g => fragMatchB g f) with
            | none => rw [hfind] at hk; exact Or.inl hk
            | some g =>
                rw [hfind] at hk
                dsimp only at hk
                have hgmem : g ∈ colCell grid col nextRow := by
                  rw [colCell_of_cellAt_some hc]
                  exact List.mem_of_find?_eq_some hfind
                have hgmatch : fragMatchB g f = true := by
                  have hx := List.find?_some hfind
                  simpa using hx
                rcases ih (nextRow + 1) _ key hk with hin | hprop
                · rcases List.mem_cons.mp hin with heq | hin2
                  · right
                    subst heq
                    refine ⟨rfl, le_refl _, h, ?_⟩
                    intro q hq1 hq2
                    have : q = nextRow := by omega
                    subst this
                    exact ⟨g, hgmem, hgmatch⟩
                  · exact Or.inl hin2
                · right
                  obtain ⟨hcol, hge, hlt, hchain⟩ := hprop
                  refine ⟨hcol, by omega, hlt, ?_⟩
                  intro q hq1 hq2
                  by_cases hq : q = nextRow
                  · subst hq
                    exact ⟨g, hgmem, hgmatch⟩
                  · exact hchain q (by omega) hq2
      · rw [if_neg h] at hk
        exact Or.inl hk

/-- Scanning the tail of a clean run: from row `r0 + j` (1 ≤ j ≤ k) the
scan counts exactly the remaining `k - j` run rows and marks each of
them as processed under the run's course name. -/
theorem spanScanF_run (grid : Grid) (col : Nat) (f0 : Frag) (n t rm : String)
    (r0 k : Nat)
    (hkey0 : fragKey f0 = (n, t, rm))
    (hsingle : ∀ r, r < grid.length → (colCell grid col r).length ≤ 1)
    (hrun : ∀ i, i < k → ∃ f ∈ colCell grid col (r0 + i), fragKey f = (n, t, rm))
    (hmax2 : ∀ f ∈ colCell grid col (r0 + k), fragKey f ≠ (n, t, rm))
    (hbound : r0 + k ≤ grid.length) :
    ∀ (d j : Nat) (P : List PKey), j = k - d → 1 ≤ j → j ≤ k →
      (spanScanF grid col f0 (grid.length - (r0 + j)) (r0 + j) P).1 = k - j ∧
      (∀ r, r0 + j ≤ r → r < r0 + k →
        ((r, col, n) : PKey) ∈
          (spanScanF grid col f0 (grid.length - (r0 + j)) (r0 + j) P).2) := by
  have hstop : ∀ (P : List PKey),
      spanScanF grid col f0 (grid.length - (r0 + k)) (r0 + k) P = (0, P) := by
    intro P
    cases hfuel : grid.length - (r0 + k) with
    | zero => rfl
    | succ m =>
        have hlt : r0 + k < grid.length := by omega
        unfold spanScanF
        rw [if_pos hlt]
        cases hc : cellAt grid (r0 + k) col with
        | none => rfl
        | some cell =>
            dsimp only
            have hfind : cell.find? (fun g => fragMatchB g f0) = none := by
              rw [List.find?_eq_none]
              intro x hx
              have hxcol : x ∈ colCell grid col (r0 + k) := by
                rw [colCell_of_cellAt_some hc]
                exact hx
              have hxK := hmax2 x hxcol
              intro hmatch
              have hkey := (fragMatchB_iff x f0).mp (by simpa using hmatch)
              rw [hkey0] at hkey
              exact hxK hkey
            rw [hfind]
  intro d
  induction d with
  | zero =>
      intro j P hj hj1 hjk
      have hjeq : j = k := by omega
      constructor
      · rw [hjeq, hstop P]
        omega
      · intro r hr1 hr2
        omega
  | succ d ih =>
      intro j P hj hj1 hjk
      by_cases hjk2 : j = k
      · constructor
        · rw [hjk2, hstop P]
          omega
        · intro r hr1 hr2
          omega
      · have hjlt : j < k := by omega
        have hlt : r0 + j < grid.length := by omega
        obtain ⟨fj, hfj_mem, hfj_key⟩ := hrun j hjlt
        have hcellj : colCell grid col (r0 + j) = [fj] :=
          singleton_of_mem_len_le hfj_mem (hsingle _ hlt)
        have hca : cellAt grid (r0 + j) col = some [fj] := by
          have hne := @cellAt_of_colCell_ne grid (r0 + j) col (by rw [hcellj]; simp)
          rw [hcellj] at hne
          exact hne
        have hname : fj.course_name = n := congrArg Prod.fst hfj_key
        cases hfuel : grid.length - (r0 + j) with
        | zero => exact absurd hfuel (by omega)
        | succ m =>
            unfold spanScanF
            rw [if_pos hlt, hca]
            dsimp only
            have hfind : ([fj].find? (fun g => fragMatchB g f0)) = some fj := by
              have hp : fragMatchB fj f0 = true :=
                (fragMatchB_iff fj f0).mpr (hfj_key.trans hkey0.symm)
              rw [List.find?_cons_of_pos _ (by simpa using hp)]
            rw [hfind]
            dsimp only
            have hm : m = grid.length - (r0 + (j + 1)) := by omega
            have hrec := ih (j + 1) ((r0 + j, col, fj.course_name) :: P)
              (by omega) (by omega) (by omega)
            rw [hm, show r0 + j + 1 = r0 + (j + 1) from rfl]
            constructor
            · rw [hrec.1]
              omega
            · intro r hr1 hr2
              by_cases hr : r = r0 + j
              · subst hr
                rw [← hname]
                exact spanScanF_P_mono grid col f0 _ _ _ _ (by simp)
              · exact hrec.2 r (by omega) hr2

/-! ### Shape and key lemmas for the merging traversal -/

theorem mergedCellFrags_shape (grid : Grid) (col row : Nat) (fs : List Frag) :
    ∀ (P : List PKey) (acc : List MergedRec) (rec : MergedRec),
      rec ∈ (mergedCellFrags grid col row fs P acc).1 →
      rec ∈ acc ∨ (rec.col = col ∧ rec.row = row) := by
  induction fs with
  | nil => intro P acc rec h; exact Or.inl h
  | cons f fs ih =>
      intro P acc rec h
      unfold mergedCellFrags at h
      by_cases hc : P.contains (row, col, f.course_name) = true
      · rw [if_pos hc] at h
        exact ih _ _ _ h
      · rw [if_neg hc] at h
        dsimp only at h
        rcases ih _ _ _ h with hin | hshape
        · rcases List.mem_append.mp hin with hin2 | hin3
          · exact Or.inl hin2
          · right
            have : rec = ⟨f, col, row, 1 + (spanScan grid col f (row + 1) P).1⟩ :=
              List.mem_singleton.mp hin3
            rw [this]
            exact ⟨rfl, rfl⟩
        · exact Or.inr hshape

theorem mergedCellFrags_P_mono (grid : Grid) (col row : Nat) (fs : List Frag) :
    ∀ (P : List PKey) (acc : List MergedRec) (key : PKey), key ∈ P →
      key ∈ (mergedCellFrags grid col row fs P acc).2 := by
  induction fs with
  | nil => intro P acc key hk; exact hk
  | cons f fs ih =>
      intro P acc key hk
      unfold mergedCellFrags
      by_cases hc : P.contains (row, col, f.course_name) = true
      · rw [if_pos hc]
        exact ih _ _ _ hk
      · rw [if_neg hc]
        dsimp only
        refine ih _ _ _ ?_
        refine List.mem_cons_of_mem _ ?_
        show key ∈ (spanScanF grid col f (grid.length - (row + 1)) (row + 1) P).2
        exact spanScanF_P_mono grid col f _ _ _ _ hk

theorem mergedCellFrags_keys (grid : Grid) (col row : Nat) (fs : List Frag) :
    ∀ (P : List PKey) (acc : List MergedRec) (key : PKey),
      key ∈ (mergedCellFrags grid col row fs P acc).2 → key ∈ P ∨ key.2.1 = col := by
  induction fs with
  | nil => intro P acc key hk; exact Or.inl hk
  | cons f fs ih =>
      intro P acc key hk
      unfold mergedCellFrags at hk
      by_cases hc : P.contains (row, col, f.course_name) = true
      · rw [if_pos hc] at hk
        exact ih _ _ _ hk
      · rw [if_neg hc] at hk
        dsimp only at hk
        rcases ih _ _ _ hk with hin | hcol
        · rcases List.mem_cons.mp hin with heq | hin2
          · right
            rw [heq]
          · rcases spanScanF_keys grid col f _ _ _ _ hin2 with hin3 | hprop
            · exact Or.inl hin3
            · exact Or.inr hprop.1
        · exact Or.inr hcol

theorem mergedRowsF_shape (grid : Grid) (col : Nat) (fuel : Nat) :
    ∀ (t : Nat) (P : List PKey) (acc : List MergedRec) (rec : MergedRec),
      rec ∈ (mergedRowsF grid col fuel t P acc).1 →
      rec ∈ acc ∨ (rec.col = col ∧ t ≤ rec.row ∧ rec.row < grid.length) := by
  induction fuel with
  | zero => intro t P acc rec h; exact Or.inl h
  | succ fuel ih =>
      intro t P acc rec h
      unfold mergedRowsF at h
      by_cases ht : t < grid.length
      · rw [if_pos ht] at h
        cases hc : cellAt grid t col with
        | none =>
            rw [hc] at h
            rcases ih _ _ _ _ h with hin | hshape
            · exact Or.inl hin
            · exact Or.inr ⟨hshape.1, by omega, hshape.2.2⟩
        | some cell =>
            rw [hc] at h
            dsimp only at h
            rcases ih _ _ _ _ h with hin | hshape
            · rcases mergedCellFrags_shape grid col t cell _ _ _ hin with hin2 | hshape2
              · exact Or.inl hin2
              · exact Or.inr ⟨hshape2.1, by omega, by omega⟩
            · exact Or.inr ⟨hshape.1, by omega, hshape.2.2⟩
      · rw [if_neg ht] at h
        exact Or.inl h

theorem mergedRowsF_P_mono (grid : Grid) (col : Nat) (fuel : Nat) :
    ∀ (t : Nat) (P : List PKey) (acc : List MergedRec) (key : PKey), key ∈ P →
      key ∈ (mergedRowsF grid col fuel t P acc).2 := by
  induction fuel with
  | zero => intro t P acc key hk; exact hk
  | succ fuel ih =>
      intro t P acc key hk
      unfold mergedRowsF
      by_cases ht : t < grid.length
      · rw [if_pos ht]
        cases hc : cellAt grid t col with
        | none => exact ih _ _ _ _ hk
        | some cell =>
            dsimp only
            exact ih _ _ _ _ (mergedCellFrags_P_mono grid col t cell _ _ _ hk)
      · rw [if_neg ht]
        exact hk

theorem mergedRowsF_keys (grid : Grid) (col : Nat) (fuel : Nat) :
    ∀ (t : Nat) (P : List PKey) (acc : List MergedRec) (key : PKey),
      key ∈ (mergedRowsF grid col fuel t P acc).2 → key ∈ P ∨ key.2.1 = col := by
  induction fuel with
  | zero => intro t P acc key hk; exact Or.inl hk
  | succ fuel ih =>
      intro t P acc key hk
      unfold mergedRowsF at hk
      by_cases ht : t < grid.length
      · rw [if_pos ht] at hk
        cases hc : cellAt grid t col with
        | none =>
            rw [hc] at hk
            exact ih _ _ _ _ hk
        | some cell =>
            rw [hc] at hk
            dsimp only at hk
            rcases ih _ _ _ _ hk with hin | hcol
            · exact mergedCellFrags_keys grid col t cell _ _ _ hin
            · exact Or.inr hcol
      · rw [if_neg ht] at hk
        exact Or.inl hk

/-- After the run's origin row was processed (its continuation rows are
marked in `P`), no later row contributes a record at `(r0, col)`: run
rows are skipped via the marks, rows past the run have other origin rows. -/
theorem mergedRowsF_after (grid : Grid) (col r0 k : Nat) (n t rm : String)
    (hsingle : ∀ r, r < grid.length → (colCell grid col r).length ≤ 1)
    (hrun : ∀ i, i < k → ∃ f ∈ colCell grid col (r0 + i), fragKey f = (n, t, rm))
    (fuel : Nat) :
    ∀ (tRow : Nat) (P : List PKey) (acc : List MergedRec),
      r0 < tRow →
      (∀ r, tRow ≤ r → r < r0 + k → ((r, col, n) : PKey) ∈ P) →
      ((mergedRowsF grid col fuel tRow P acc).1).filter
          (fun rec => rec.row == r0 && rec.col == col) =
        acc.filter (fun rec => rec.row == r0 && rec.col == col) := by
  induction fuel with
  | zero => intro tRow P acc h1 h2; rfl
  | succ fuel ih =>
      intro tRow P acc h1 h2
      unfold mergedRowsF
      by_cases ht : tRow < grid.length
      · rw [if_pos ht]
        by_cases hin : tRow < r0 + k
        · obtain ⟨ft, hft_mem, hft_key⟩ := hrun (tRow - r0) (by omega)
          have heqr : r0 + (tRow - r0) = tRow := by omega
          rw [heqr] at hft_mem
          have hcell : colCell grid col tRow = [ft] :=
            singleton_of_mem_len_le hft_mem (hsingle tRow ht)
          have hca : cellAt grid tRow col = some [ft] := by
            have hne := @cellAt_of_colCell_ne grid tRow col (by rw [hcell]; simp)
            rw [hcell] at hne
            exact hne
          rw [hca]
          dsimp only
          have hname : ft.course_name = n := congrArg Prod.fst hft_key
          have hcont : P.contains (tRow, col, ft.course_name) = true := by
            rw [hname]
            exact (pkey_contains_iff _ _).mpr (h2 tRow (le_refl _) hin)
          have hmc : mergedCellFrags grid col tRow [ft] P acc = (acc, P) := by
            unfold mergedCellFrags
            rw [if_pos hcont]
            rfl
          rw [hmc]
          exact ih (tRow + 1) P acc (by omega) (fun r hr1 hr2 => h2 r (by omega) hr2)
        · cases hc : cellAt grid tRow col with
          | none =>
              exact ih (tRow + 1) P acc (by omega)
                (fun r hr1 hr2 => absurd hr2 (by omega))
          | some cell =>
              dsimp only
              rw [ih (tRow + 1) _ _ (by omega)
                (fun r hr1 hr2 => absurd hr2 (by omega))]
              rw [mergedCellFrags_acc grid col tRow cell P acc]
              dsimp only
              rw [List.filter_append]
              have hnil : ((mergedCellFrags grid col tRow cell P []).1).filter
                  (fun rec => rec.row == r0 && rec.col == col) = [] := by
                rw [List.filter_eq_nil_iff]
                intro rec hrec
                rcases mergedCellFrags_shape grid col tRow cell P [] rec hrec with
                  hfalse | hshape
                · cases hfalse
                · intro hb
                  simp only [Bool.and_eq_true, beq_iff_eq] at hb
                  omega
              rw [hnil, List.append_nil]
      · rw [if_neg ht]

/-- Processing a pre-origin row never marks a key at or beyond the run's
origin: a span scan reaching `r0` would need matching fragments at `r0`
and `r0 - 1`, contradicting the run's upward maximality. -/
theorem mergedCellFrags_inv (grid : Grid) (col r0 : Nat) (f0 : Frag)
    (n t rm : String)
    (hkey0 : fragKey f0 = (n, t, rm))
    (hcell0 : colCell grid col r0 = [f0])
    (hmax1 : r0 = 0 ∨ ∀ f ∈ colCell grid col (r0 - 1), fragKey f ≠ (n, t, rm))
    (tRow : Nat) (htlt2 : tRow < r0) (htlt : tRow < grid.length)
    (hsingle : ∀ r, r < grid.length → (colCell grid col r).length ≤ 1)
    (cell : Cell) (hcol : colCell grid col tRow = cell) :
    ∀ (P : List PKey) (acc : List MergedRec) (r : Nat) (s : String),
      (∀ r' s', r0 ≤ r' → ((r', col, s') : PKey) ∉ P) → r0 ≤ r →
      ((r, col, s) : PKey) ∉ (mergedCellFrags grid col tRow cell P acc).2 := by
  intro P acc r s hinv hr hmem
  have hmax1' : ∀ f ∈ colCell grid col (r0 - 1), fragKey f ≠ (n, t, rm) := by
    rcases hmax1 with h0 | h
    · omega
    · exact h
  have hlen : cell.length ≤ 1 := by
    rw [← hcol]
    exact hsingle tRow htlt
  cases cell with
  | nil =>
      exact hinv r s hr hmem
  | cons g gs =>
      cases gs with
      | cons g2 gs2 => simp at hlen
      | nil =>
          unfold mergedCellFrags at hmem
          by_cases hcont : P.contains (tRow, col, g.course_name) = true
          · rw [if_pos hcont] at hmem
            exact hinv r s hr hmem
          · rw [if_neg hcont] at hmem
            dsimp only at hmem
            rcases List.mem_cons.mp hmem with heq | hmem2
            · have : r = tRow := congrArg Prod.fst heq
              omega
            · show False
              rcases spanScanF_keys grid col g _ _ _ _ hmem2 with hin | hprop
              · exact hinv r s hr hin
              · obtain ⟨_, hge, _, hchain⟩ := hprop
                obtain ⟨m, hm_mem, hm_match⟩ :=
                  hchain r0 (by omega) (by exact hr)
                rw [hcell0] at hm_mem
                have hm0 : m = f0 := List.mem_singleton.mp hm_mem
                subst hm0
                have hgK : fragKey g = (n, t, rm) := by
                  have := (fragMatchB_iff m g).mp (by simpa using hm_match)
                  rw [← this, hkey0]
                by_cases hstep : tRow + 1 ≤ r0 - 1
                · obtain ⟨m2, hm2_mem, hm2_match⟩ :=
                    hchain (r0 - 1) (by omega) (by omega)
                  have hm2K : fragKey m2 = (n, t, rm) := by
                    have := (fragMatchB_iff m2 g).mp (by simpa using hm2_match)
                    rw [this, hgK]
                  exact hmax1' m2 hm2_mem hm2K
                · have hteq : tRow = r0 - 1 := by omega
                  have hg_mem : g ∈ colCell grid col (r0 - 1) := by
                    rw [← hteq, hcol]
                    simp
                  exact hmax1' g hg_mem hgK

/-- Traversing the column from any row at or before the run's origin,
with no processed keys at or beyond the origin, yields exactly one
record for `(r0, col)`: the origin fragment with the full span `k`. -/
theorem mergedRowsF_main (grid : Grid) (col r0 k : Nat) (f0 : Frag)
    (n t rm : String)
    (hkey0 : fragKey f0 = (n, t, rm))
    (hsingle : ∀ r, r < grid.length → (colCell grid col r).length ≤ 1)
    (hrun : ∀ i, i < k → ∃ f ∈ colCell grid col (r0 + i), fragKey f = (n, t, rm))
    (hmax1 : r0 = 0 ∨ ∀ f ∈ colCell grid col (r0 - 1), fragKey f ≠ (n, t, rm))
    (hmax2 : ∀ f ∈ colCell grid col (r0 + k), fragKey f ≠ (n, t, rm))
    (hk : 1 ≤ k) (hbound : r0 + k ≤ grid.length)
    (hcell0 : colCell grid col r0 = [f0]) :
    ∀ (fuel tRow : Nat) (P : List PKey) (acc : List MergedRec),
      fuel = grid.length - tRow → tRow ≤ r0 →
      (∀ r s, r0 ≤ r → ((r, col, s) : PKey) ∉ P) →
      ((mergedRowsF grid col fuel tRow P acc).1).filter
          (fun rec => rec.row == r0 && rec.col == col) =
        acc.filter (fun rec => rec.row == r0 && rec.col == col) ++
          [⟨f0, col, r0, k⟩] := by
  intro fuel
  induction fuel with
  | zero =>
      intro tRow P acc hfuel ht hinv
      exact absurd hfuel (by omega)
  | succ fuel ih =>
      intro tRow P acc hfuel ht hinv
      have htlt : tRow < grid.length := by omega
      unfold mergedRowsF
      rw [if_pos htlt]
      by_cases hteq : tRow = r0
      · subst hteq
        have hca : cellAt grid tRow col = some [f0] := by
          have hne := @cellAt_of_colCell_ne grid tRow col (by rw [hcell0]; simp)
          rw [hcell0] at hne
          exact hne
        rw [hca]
        dsimp only
        have hnotc : ¬ P.contains (tRow, col, f0.course_name) = true := by
          intro hc
          exact hinv tRow f0.course_name (le_refl _) ((pkey_contains_iff _ _).mp hc)
        have hscan := spanScanF_run grid col f0 n t rm tRow k hkey0 hsingle hrun
          hmax2 hbound (k - 1) 1 P (by omega) (le_refl _) hk
        have hspan1 : (spanScan grid col f0 (tRow + 1) P).1 = k - 1 := by
          unfold spanScan
          rw [show tRow + 1 = tRow + 1 from rfl]
          exact hscan.1
        have hmc : mergedCellFrags grid col tRow [f0] P acc =
            (acc ++ [⟨f0, col, tRow, k⟩],
             (tRow, col, f0.course_name) :: (spanScan grid col f0 (tRow + 1) P).2) := by
          unfold mergedCellFrags
          rw [if_neg hnotc]
          dsimp only
          rw [hspan1]
          rw [show 1 + (k - 1) = k by omega]
          rfl
        rw [hmc]
        dsimp only
        rw [mergedRowsF_after grid col tRow k n t rm hsingle hrun fuel (tRow + 1)
          _ _ (by omega) ?marks]
        case marks =>
          intro r hr1 hr2
          refine List.mem_cons_of_mem _ ?_
          show ((r, col, n) : PKey) ∈
            (spanScanF grid col f0 (grid.length - (tRow + 1)) (tRow + 1) P).2
          exact hscan.2 r (by omega) hr2
        rw [List.filter_append]
        have hpred : (List.filter (fun rec => rec.row == tRow && rec.col == col)
            ([⟨f0, col, tRow, k⟩] : List MergedRec)) = [⟨f0, col, tRow, k⟩] := by
          simp
        exact congrArg _ hpred
      · have htlt2 : tRow < r0 := by omega
        cases hc : cellAt grid tRow col with
        | none => exact ih (tRow + 1) P acc (by omega) (by omega) hinv
        | some cell =>
            dsimp only
            have hcol : colCell grid col tRow = cell := colCell_of_cellAt_some hc
            have hinv2 : ∀ r s, r0 ≤ r →
                ((r, col, s) : PKey) ∉ (mergedCellFrags grid col tRow cell P acc).2 :=
              fun r s hr => mergedCellFrags_inv grid col r0 f0 n t rm hkey0 hcell0
                hmax1 tRow htlt2 htlt hsingle cell hcol P acc r s hinv hr
            rw [ih (tRow + 1) _ _ (by omega) (by omega) hinv2]
            rw [mergedCellFrags_acc grid col tRow cell P acc]
            dsimp only
            rw [List.filter_append]
            have hnil : ((mergedCellFrags grid col tRow cell P []).1).filter
                (fun rec => rec.row == r0 && rec.col == col) = [] := by
              rw [List.filter_eq_nil_iff]
              intro rec hrec
              rcases mergedCellFrags_shape grid col tRow cell P [] rec hrec with
                hfalse | hshape
              · cases hfalse
              · intro hb
                simp only [Bool.and_eq_true, beq_iff_eq] at hb
                omega
            rw [hnil, List.append_nil]

theorem mergedRowsF_filter_other (grid : Grid) (col2 col r0 : Nat)
    (hne : col2 ≠ col) (fuel tRow : Nat) (P : List PKey) (acc : List MergedRec) :
    ((mergedRowsF grid col2 fuel tRow P acc).1).filter
        (fun rec => rec.row == r0 && rec.col == col) =
      acc.filter (fun rec => rec.row == r0 && rec.col == col) := by
  rw [mergedRowsF_acc grid col2 fuel tRow P acc]
  dsimp only
  rw [List.filter_append]
  have hnil : ((mergedRowsF grid col2 fuel tRow P []).1).filter
      (fun rec => rec.row == r0 && rec.col == col) = [] := by
    rw [List.filter_eq_nil_iff]
    intro rec hrec
    rcases mergedRowsF_shape grid col2 fuel tRow P [] rec hrec with hfalse | hshape
    · cases hfalse
    · intro hb
      simp only [Bool.and_eq_true, beq_iff_eq] at hb
      exact hne (hshape.1.symm.trans hb.2)
  rw [hnil, List.append_nil]

theorem mergedColsFold_filter_other (grid : Grid) (col r0 : Nat) :
    ∀ (cols : List Nat) (P : List PKey) (acc : List MergedRec),
      (∀ c ∈ cols, c ≠ col) →
      (mergedColsFold grid cols P acc).filter
          (fun rec => rec.row == r0 && rec.col == col) =
        acc.filter (fun rec => rec.row == r0 && rec.col == col) := by
  intro cols
  induction cols with
  | nil => intro P acc h; rfl
  | cons c cs ih =>
      intro P acc h
      show (mergedColsFold grid cs (mergedRows grid c 0 P acc).2
          (mergedRows grid c 0 P acc).1).filter
            (fun rec => rec.row == r0 && rec.col == col) = _
      rw [ih _ _ (fun c2 hc2 => h c2 (by simp [hc2]))]
      unfold mergedRows
      exact mergedRowsF_filter_other grid c col r0 (h c (by simp)) _ 0 P acc

theorem mergedColsFold_run (grid : Grid) (col r0 k : Nat) (f0 : Frag)
    (n t rm : String)
    (hkey0 : fragKey f0 = (n, t, rm))
    (hsingle : ∀ r, r < grid.length → (colCell grid col r).length ≤ 1)
    (hrun : ∀ i, i < k → ∃ f ∈ colCell grid col (r0 + i), fragKey f = (n, t, rm))
    (hmax1 : r0 = 0 ∨ ∀ f ∈ colCell grid col (r0 - 1), fragKey f ≠ (n, t, rm))
    (hmax2 : ∀ f ∈ colCell grid col (r0 + k), fragKey f ≠ (n, t, rm))
    (hk : 1 ≤ k) (hbound : r0 + k ≤ grid.length)
    (hcell0 : colCell grid col r0 = [f0]) :
    ∀ (cs1 cs2 : List Nat) (P : List PKey) (acc : List MergedRec),
      (∀ c ∈ cs1, c ≠ col) → (∀ c ∈ cs2, c ≠ col) →
      (∀ key ∈ P, key.2.1 ≠ col) →
      (mergedColsFold grid (cs1 ++ col :: cs2) P acc).filter
          (fun rec => rec.row == r0 && rec.col == col) =
        acc.filter (fun rec => rec.row == r0 && rec.col == col) ++
          [⟨f0, col, r0, k⟩] := by
  intro cs1
  induction cs1 with
  | nil =>
      intro cs2 P acc h1 h2 hP
      show (mergedColsFold grid cs2 (mergedRows grid col 0 P acc).2
          (mergedRows grid col 0 P acc).1).filter
            (fun rec => rec.row == r0 && rec.col == col) = _
      rw [mergedColsFold_filter_other grid col r0 cs2 _ _ h2]
      unfold mergedRows
      exact mergedRowsF_main grid col r0 k f0 n t rm hkey0 hsingle hrun hmax1
        hmax2 hk hbound hcell0 _ 0 P acc rfl (by omega)
        (fun r s hr hmem => hP (r, col, s) hmem rfl)
  | cons c cs1 ih =>
      intro cs2 P acc h1 h2 hP
      show (mergedColsFold grid (cs1 ++ col :: cs2) (mergedRows grid c 0 P acc).2
          (mergedRows grid c 0 P acc).1).filter
            (fun rec => rec.row == r0 && rec.col == col) = _
      have hkeys : ∀ key ∈ (mergedRows grid c 0 P acc).2, key.2.1 ≠ col := by
        intro key hkey
        unfold mergedRows at hkey
        rcases mergedRowsF_keys grid c _ 0 P acc key hkey with hin | hcol2
        · exact hP key hin
        · rw [hcol2]
          exact h1 c (by simp)
      rw [ih cs2 _ _ (fun c2 hc2 => h1 c2 (by simp [hc2])) h2 hkeys]
      unfold mergedRows
      rw [mergedRowsF_filter_other grid c col r0 (h1 c (by simp)) _ 0 P acc]

/-- Every merged record's origin row lies inside the grid. -/
theorem mergedRecords_row_lt (grid : Grid) :
    ∀ rec ∈ mergedRecords grid, rec.row < grid.length := by
  unfold mergedRecords
  generalize List.range (min 5 (gridWidth grid)) = cols
  have hgen : ∀ (cols : List Nat) (P : List PKey) (acc : List MergedRec),
      (∀ rec ∈ acc, rec.row < grid.length) →
      ∀ rec ∈ mergedColsFold grid cols P acc, rec.row < grid.length := by
    intro cols
    induction cols with
    | nil => intro P acc hacc rec hrec; exact hacc rec hrec
    | cons c cs ih =>
        intro P acc hacc rec hrec
        refine ih _ _ ?_ rec hrec
        intro rec2 hrec2
        unfold mergedRows at hrec2
        rcases mergedRowsF_shape grid c _ 0 P acc rec2 hrec2 with hin | hshape
        · exact hacc rec2 hin
        · exact hshape.2.2
  exact hgen cols [] [] (by intro rec h; cases h)

theorem range_split (m col : Nat) (h : col < m) :
    List.range m = List.range' 0 col ++ col :: List.range' (col + 1) (m - col - 1) := by
  rw [List.range_eq_range']
  have h2 : m = (m - col) + col := by omega
  conv_lhs => rw [h2]
  rw [← List.range'_append_1 0 col (m - col)]
  congr 1
  have h3 : m - col = (m - col - 1) + 1 := by omega
  rw [h3, List.range'_succ]
  norm_num

/-- Claim C2, amended: a maximal vertical run of `k` cells in a column,
each holding a fragment with key (course name, type, room), yields
exactly one output event with start = boundary of the run's first row and
end = boundary `k` rows below it (or the fallback), **provided** the
column's cells hold at most one fragment each (the processed-set key is
(row, col, course name) only, so an extra same-course fragment can
swallow the run — see the counterexample), the slot boundaries are
strictly increasing, and the merged record passes validation (positive
parsed interval and end after start, which the wrap-around fallback can
violate). -/
theorem C2_maximal_run_amended
    (hours : List PyTime) (grid : Grid) (col r0 k : Nat) (f0 : Frag)
    (n t rm : String) (ri : Int)
    (hlen : hours.length = grid.length)
    (hmono : hoursStrictMono hours)
    (hcol : col < min 5 (gridWidth grid))
    (hsingle : ∀ r, r < grid.length → (colCell grid col r).length ≤ 1)
    (hk : 1 ≤ k) (hbound : r0 + k ≤ grid.length)
    (hcell0 : colCell grid col r0 = [f0])
    (hkey0 : fragKey f0 = (n, t, rm))
    (hrun : ∀ i, i < k → ∃ f ∈ colCell grid col (r0 + i), fragKey f = (n, t, rm))
    (hmax1 : r0 = 0 ∨ ∀ f ∈ colCell grid col (r0 - 1), fragKey f ≠ (n, t, rm))
    (hmax2 : ∀ f ∈ colCell grid col (r0 + k), fragKey f ≠ (n, t, rm))
    (hpi : pyInt f0.repeat_interval = some ri) (hri : 1 ≤ ri)
    (hend : PyTime.ltb (hours.getD r0 ⟨0, 0⟩) (computeEnd hours r0 k) = true) :
    ((processGrid hours grid).filter (fun e =>
        e.course_name == n && e.event_type == t && e.room == rm &&
        e.weekday == Int.ofNat col && e.start_time == hours.getD r0 ⟨0, 0⟩)).map
      (fun e => e.end_time) = [computeEnd hours r0 k] := by
  have hcol4 : col ≤ 4 := by omega
  have hmerged : (mergedRecords grid).filter
      (fun rec => rec.row == r0 && rec.col == col) = [⟨f0, col, r0, k⟩] := by
    unfold mergedRecords
    rw [range_split (min 5 (gridWidth grid)) col hcol]
    rw [mergedColsFold_run grid col r0 k f0 n t rm hkey0 hsingle hrun hmax1 hmax2
      hk hbound hcell0 (List.range' 0 col)
      (List.range' (col + 1) (min 5 (gridWidth grid) - col - 1)) [] []
      (by
        intro c hc
        obtain ⟨i, hi, hc2⟩ := List.mem_range'.mp hc
        omega)
      (by
        intro c hc
        obtain ⟨i, hi, hc2⟩ := List.mem_range'.mp hc
        omega)
      (by intro key h; cases h)]
    rfl
  have hmat0 : matRec hours (⟨f0, col, r0, k⟩ : MergedRec) =
      some ⟨f0.course_name, f0.event_type, f0.instructor, f0.room, Int.ofNat col,
        hours.getD r0 ⟨0, 0⟩, computeEnd hours r0 k, ri, f0.event_type_code⟩ := by
    unfold matRec
    dsimp only
    rw [materialize_ok_of hpi hri hcol4 hend]
    rfl
  have hn : f0.course_name = n := congrArg Prod.fst hkey0
  have htt : f0.event_type = t := congrArg (fun p => p.2.1) hkey0
  have hrm : f0.room = rm := congrArg (fun p => p.2.2) hkey0
  rw [processGrid_eq_filterMap]
  rw [filter_filterMap_eq (matRec hours)
    (fun e => e.course_name == n && e.event_type == t && e.room == rm &&
      e.weekday == Int.ofNat col && e.start_time == hours.getD r0 ⟨0, 0⟩)
    (fun rec => rec.row == r0 && rec.col == col) (mergedRecords grid) ?hf]
  · rw [hmerged]
    simp only [List.filterMap_cons, List.filterMap_nil, hmat0]
    rfl
  case hf =>
    intro rec hrec e hmr
    dsimp only
    by_cases hq : (rec.row == r0 && rec.col == col) = true
    · have hrec2 : rec ∈ (mergedRecords grid).filter
          (fun rec => rec.row == r0 && rec.col == col) :=
        List.mem_filter.mpr ⟨hrec, hq⟩
      rw [hmerged] at hrec2
      have hrec3 := List.mem_singleton.mp hrec2
      subst hrec3
      rw [hmat0] at hmr
      injection hmr with hmr
      subst hmr
      rw [hq]
      simp [hn, htt, hrm]
    · have hqf : (rec.row == r0 && rec.col == col) = false := by
        cases hx : (rec.row == r0 && rec.col == col)
        · rfl
        · exact absurd hx hq
      rw [hqf]
      unfold matRec at hmr
      cases hme : materializeEvent rec.frag rec.col (hours.getD rec.row ⟨0, 0⟩)
          (computeEnd hours rec.row rec.span) with
      | error m =>
          rw [hme] at hmr
          exact absurd hmr (by simp [Except.toOption])
      | ok a =>
          rw [hme] at hmr
          have ha : a = e := by simpa [Except.toOption] using hmr
          subst ha
          obtain ⟨ri2, hpi2, hae⟩ := materialize_ok_eq hme
          have hq2 : rec.row ≠ r0 ∨ rec.col ≠ col := by
            by_contra hcon
            push_neg at hcon
            exact hq (by simp [hcon.1, hcon.2])
          rcases hq2 with hrow | hcol2
          · have hrowlt : rec.row < hours.length := by
              rw [hlen]
              exact mergedRecords_row_lt grid rec hrec
            have hr0lt2 : r0 < hours.length := by
              rw [hlen]
              omega
            have hne := hoursStrictMono_getD_ne hmono hrowlt hr0lt2 hrow
            rw [hae]
            simp only [Bool.and_eq_false_iff, beq_eq_false_iff_ne]
            exact Or.inr hne
          · rw [hae]
            simp only [Bool.and_eq_false_iff, beq_eq_false_iff_ne]
            exact Or.inl (Or.inr fun hc => hcol2 (Int.ofNat.inj hc))

/-- Witness for `C2_maximal_run_amended`: the clean three-slot run of
`gridS` over boundaries 07:00-10:00 yields exactly the 07:00-10:00
event. -/
theorem C2_maximal_run_amended_witness :
    ((processGrid hours4 gridS).filter (fun e =>
        e.course_name == ("Algo") && e.event_type == ("Zajęcia") &&
        e.room == ("EA 101") && e.weekday == Int.ofNat 0 &&
        e.start_time == hours4.getD 0 ⟨0, 0⟩)).map
      (fun e => e.end_time) = [computeEnd hours4 0 3] :=
  C2_maximal_run_amended hours4 gridS 0 0 3 fragF ("Algo") ("Zajęcia") ("EA 101") 1
    rfl (by unfold hoursStrictMono; decide) (by decide) (by decide) (by decide) (by decide) rfl rfl
    (by decide) (Or.inl rfl) (by decide) (by decide) (by decide) (by decide)

end SIS
